import Mathlib

/-!
Verification of the SNDAQ SICO engine (`icecube/sndaq`, directory
`src/python/sndaq/`) against its natural-language specification.

The Python sources are shallowly embedded below:

* `windowbuffer` — the rolling 2-D buffer of `buffer.py` (class `windowbuffer`).
  Rows are modelled as functions `Nat → Nat` (channel → count); the physical
  backing array `_data` is a function from physical row index to row.
* the analysis-geometry and incremental-sum machinery of `analysis.py`
  (`Analysis.__init__` index layout, `AnalysisHandler.update_sums`,
  `AnalysisHandler.update_results`, bank construction, trigger window);
* the trigger conditions of `trigger.py` (`PrimaryTrigger.check`,
  `FastResponseTrigger.check`);
* the 2 ms rebinner of `datahandler.py` (`DataHandler.rebin_scalers`).

Machine integers are modelled as `Nat`/`Int` with explicit `% 256` where the
source stores values in `np.uint8` (the rebinner); counts flowing through the
analysis buffer are `np.uint16` data accumulated into `np.uint64` sums, whose
arithmetic provably cannot wrap for any data reachable from 16-bit inputs, and
is therefore modelled with exact integers.  IEEE-754 special values (NaN and
infinities), which decide the ill-conditioned-statistics claims, are modelled
by the four-constructor type `FVal` over exact rationals.
-/

namespace Sndaq

/-! ## Floating-point value model

`update_results` (analysis.py:558-587) computes with numpy float64 scalars and
divides without guarding the denominator, so NaN and infinities can appear.
`FVal` models a float64 as either a finite value (kept exact as a rational;
float rounding is immaterial to every statement proved below, which only
distinguishes zero / nonzero / sign / non-finite), `+inf`, `-inf`, or NaN.
Rationals have no signed zero; all zeros reaching a denominator in the engine
arise as sums of elementwise-nonnegative guarded quotients, hence are `+0.0`
in the source, which is the sign convention `fdivQ` implements. -/

inductive FVal where
  | fin (q : ℚ)
  | pinf
  | ninf
  | nan
  deriving DecidableEq, Repr

namespace FVal

/-- Division of two finite float64 values (`a / b` in numpy): `0/0 = NaN`,
`a/+0 = ±inf` by the sign of `a`, otherwise exact. -/
def fdivQ (a b : ℚ) : FVal :=
  if b = 0 then
    if a = 0 then nan
    else if 0 < a then pinf
    else ninf
  else fin (a / b)

/-- Division on float64 values with the IEEE-754 special-value table
(`nan` absorbs; a finite value divided by an infinity is zero; `inf/inf` is
`nan`; an infinity divided by a nonnegative finite value keeps its sign —
finite denominators reaching this point in the engine are nonnegative). -/
def fdiv : FVal → FVal → FVal
  | nan, _ => nan
  | _, nan => nan
  | fin a, fin b => fdivQ a b
  | fin _, pinf => fin 0
  | fin _, ninf => fin 0
  | pinf, fin b => if 0 ≤ b then pinf else ninf
  | ninf, fin b => if 0 ≤ b then ninf else pinf
  | pinf, pinf => nan
  | pinf, ninf => nan
  | ninf, pinf => nan
  | ninf, ninf => nan

/-- Square root on float64 values.  `sqrt(+inf) = +inf`, `sqrt(NaN) = NaN`,
and the square root of a negative value is `NaN`.  The finite nonnegative
branch uses `Rat.sqrt`, which is only an approximation of the real (correctly
rounded) square root; no theorem below evaluates this branch, every proved
statement exercises only the non-finite rows of this table. -/
def fsqrt : FVal → FVal
  | nan => nan
  | pinf => pinf
  | ninf => nan
  | fin q => if q < 0 then nan else fin (Rat.sqrt q)

/-- Strict `>` comparison of float64 values as numpy evaluates it: any
comparison involving NaN is false. -/
def fgt : FVal → FVal → Bool
  | nan, _ => false
  | _, nan => false
  | fin a, fin b => decide (b < a)
  | pinf, pinf => false
  | pinf, _ => true
  | ninf, _ => false
  | fin _, pinf => false
  | fin _, ninf => true

end FVal

/-! ## Rolling window buffer (`buffer.py`, class `windowbuffer`)

`_data` is the physical backing array of `_buflen = _size * _mult` rows;
`_idx` is the write position; `_n` the saturating appended-row counter.
A row is a function `Nat → Nat` (channel index → count). -/

structure windowbuffer where
  size : ℕ
  ndom : ℕ
  mult : ℕ
  n : ℕ
  idx : ℕ
  dataPhys : ℕ → ℕ → ℕ

namespace windowbuffer

/-- Physical backing length `_buflen = _size * _mult`. -/
def buflen (b : windowbuffer) : ℕ := b.size * b.mult

/-- `windowbuffer.__init__`: zeroed backing array, `_idx = _size`, `_n = 0`. -/
def init (size ndom : ℕ) (mult : ℕ := 2) : windowbuffer :=
  ⟨size, ndom, mult, 0, size, fun _ _ => 0⟩

/-- Property `filled`: `_n >= _buflen`. -/
def filled (b : windowbuffer) : Bool := b.buflen ≤ b.n

/-- `_reset`: copy the last `_size` physical rows to the front and rewind
`_idx` to `_size`. -/
def resetBuf (b : windowbuffer) : windowbuffer :=
  { b with
    idx := b.size
    dataPhys := fun i c =>
      if i < b.size then b.dataPhys (b.buflen - b.size + i) c else b.dataPhys i c }

/-- Write `entry` at `_idx` and increment `_idx`; used by `append`. -/
def writeAt (entry : ℕ → ℕ) (b : windowbuffer) : windowbuffer :=
  { b with
    dataPhys := fun i c => if i = b.idx then entry c else b.dataPhys i c
    idx := b.idx + 1 }

/-- `append`: reset if `_idx >= _buflen`, write the entry at `_idx`,
increment `_idx`, and increment `_n` unless `filled`. -/
def append (entry : ℕ → ℕ) (b : windowbuffer) : windowbuffer :=
  if (writeAt entry (if b.buflen ≤ b.idx then b.resetBuf else b)).filled then
    writeAt entry (if b.buflen ≤ b.idx then b.resetBuf else b)
  else
    { writeAt entry (if b.buflen ≤ b.idx then b.resetBuf else b) with
      n := (writeAt entry (if b.buflen ≤ b.idx then b.resetBuf else b)).n + 1 }

/-- Positional read of the logical window (`__getitem__` through the `data`
property): logical row `i` is physical row `_idx - _size + i`. -/
def get (b : windowbuffer) (i : ℕ) : ℕ → ℕ :=
  b.dataPhys (b.idx - b.size + i)

/-- Append a list of rows in order (`foldl` of `append`). -/
def appendList (rows : List (ℕ → ℕ)) (b : windowbuffer) : windowbuffer :=
  rows.foldl (fun acc r => acc.append r) b

/-- Structural well-formedness of the rolling buffer: the write index stays
in `[_size, _buflen]`. -/
def WF (b : windowbuffer) : Prop := b.size ≤ b.idx ∧ b.idx ≤ b.buflen

end windowbuffer

/-! ## Analysis configuration (`analysis.py`, class `AnalysisConfig`)

Durations are in ms.  The class attributes `_raw_binsize = 2`,
`_dur_signi_buffer = 600000` (600 s) and `_dur_trigger_window = 30000` (30 s)
are modelled as fields of `AnalysisConfigStatic`. -/

structure AnalysisConfig where
  use_offsets : Bool
  use_rebins : Bool
  binsize_ms : List ℕ
  duration_bgl_ms : ℕ
  duration_bgt_ms : ℕ
  duration_exl_ms : ℕ
  duration_ext_ms : ℕ
  min_active_doms : ℕ
  min_bkg_rate : ℚ
  max_bkg_rate : ℚ
  min_bkg_fano : ℚ
  max_bkg_fano : ℚ

namespace AnalysisConfig

/-- Class attribute `_raw_binsize = 2` ms. -/
def raw_binsize : ℕ := 2

/-- Class attribute `_dur_signi_buffer = int(600e3)` ms. -/
def dur_signi_buffer : ℕ := 600000

/-- Class attribute `_dur_trigger_window = int(30e3)` ms. -/
def dur_trigger_window : ℕ := 30000

/-- `self._base_binsize = np.min(self.binsize_ms)`. -/
def base_binsize (c : AnalysisConfig) : ℕ := c.binsize_ms.foldr min (c.binsize_ms.headD 0)

/-- `self.max_binsize = np.max(self.binsize_ms)`. -/
def max_binsize (c : AnalysisConfig) : ℕ := c.binsize_ms.foldr max (c.binsize_ms.headD 0)

/-- Property `duration_nosearch`: sum of both background and both exclusion
durations. -/
def duration_nosearch (c : AnalysisConfig) : ℕ :=
  c.duration_bgl_ms + c.duration_ext_ms + c.duration_bgt_ms + c.duration_exl_ms

/-- `AnalysisHandler.__init__`:
`self._size = ((config.duration_nosearch + 3 * config.max_binsize) // config.base_binsize) - 1`.
Integer floor division; a zero `base_binsize` is a `ZeroDivisionError` in the
source, so every statement below assumes a positive base binsize. -/
def handler_size (c : AnalysisConfig) : ℕ :=
  (c.duration_nosearch + 3 * c.max_binsize) / c.base_binsize - 1

end AnalysisConfig

/-! ## Bank construction (`AnalysisHandler.__init__`, analysis.py:319-328)

The loop
```
for binning in np.asarray(self._binnings, dtype=dtype):
    for offset in np.arange(0, binning, 500, dtype=dtype):
        idx = int(self._size - (config.duration_nosearch + offset + binning) / config.base_binsize)
        self.analyses.append(Analysis(config, binning, offset, idx=idx, ndom=self._ndom,
                                      start_time=self._start_time, n_ana=n))
```
never consults `config.use_offsets`, and it casts `binning` through the
handler's scaler dtype `np.uint16` (hence the `% 65536`).  The `(binsize,
offset, idx)` triples it enumerates are modelled by `analysisBankParams`. -/

/-- `np.arange(0, binning, 500)`: multiples of 500 strictly below `binning`. -/
def offsetsFor (binning : ℕ) : List ℕ :=
  (List.range ((binning + 499) / 500)).map (· * 500)

/-- Python `int()` on a rational: truncation toward zero. -/
def intTrunc (q : ℚ) : ℤ :=
  if q < 0 then -(Rat.floor (-q)) else Rat.floor q

/-- `idx = int(self._size - (config.duration_nosearch + offset + binning) / config.base_binsize)`:
true division followed by `int` truncation toward zero. -/
def bankIdx (c : AnalysisConfig) (binning offset : ℕ) : ℤ :=
  intTrunc ((c.handler_size : ℚ) -
    ((c.duration_nosearch + offset + binning : ℕ) : ℚ) / (c.base_binsize : ℚ))

/-- The `(binsize, offset, idx)` triples enumerated by the bank-construction
loop, in order. -/
def analysisBankParams (c : AnalysisConfig) : List (ℕ × ℕ × ℤ) :=
  c.binsize_ms.flatMap fun b0 =>
    (offsetsFor (b0 % 65536)).map fun o => (b0 % 65536, o, bankIdx c (b0 % 65536) o)

/-! ## Python-call model for `Analysis.__init__` (analysis.py:835, 326)

`Analysis.__init__(self, config, binsize, offset, idx=0, ndom=5160,
start_time=0)` has no parameter named `n_ana`, but the handler's call passes
the keyword argument `n_ana=n`; Python raises `TypeError: __init__() got an
unexpected keyword argument` before the constructor body runs. -/

inductive PyError where
  | typeError
  | nameError
  deriving DecidableEq, Repr

/-- The declared parameter names of `Analysis.__init__` (after `self`). -/
def analysisInitParamNames : List String :=
  ["config", "binsize", "offset", "idx", "ndom", "start_time"]

/-- The keyword-argument names used at the handler's call site
(`idx=`, `ndom=`, `start_time=`, `n_ana=`). -/
def handlerAnalysisCallKwargs : List String :=
  ["idx", "ndom", "start_time", "n_ana"]

/-- Python keyword-argument binding: a call raises `TypeError` when some
keyword is not among the declared parameter names. -/
def pyBindKwargs (params kwargs : List String) : Except PyError Unit :=
  if kwargs.all (fun k => params.contains k) then .ok () else .error .typeError

/-- The bank construction as executed: each enumerated `(binsize, offset,
idx)` triple leads to a constructor call whose keyword arguments must bind. -/
def buildAnalyses (c : AnalysisConfig) : Except PyError (List (ℕ × ℕ × ℤ)) :=
  (analysisBankParams c).mapM fun t => do
    let _ ← pyBindKwargs analysisInitParamNames handlerAnalysisCallKwargs
    pure t

/-! ## Trigger-window state (`AnalysisHandler`, analysis.py:433-450, 821-827)

`trigger_pending` is `self.buffer_analysis.n <= self._n_trigger_close`;
`open_trigger_window` sets `self._n_trigger_close = self.buffer_analysis.n +
self._n_bins_trigger_window`; `trigger_finalized` is
`len(self.candidates) > 0 and not self.trigger_pending`. -/

structure HandlerTriggerState where
  buffer_analysis : windowbuffer
  n_bins_trigger_window : ℕ
  n_trigger_close : ℕ
  num_candidates : ℕ

namespace HandlerTriggerState

def trigger_pending (s : HandlerTriggerState) : Bool :=
  s.buffer_analysis.n ≤ s.n_trigger_close

def open_trigger_window (s : HandlerTriggerState) : HandlerTriggerState :=
  { s with n_trigger_close := s.buffer_analysis.n + s.n_bins_trigger_window }

def trigger_finalized (s : HandlerTriggerState) : Bool :=
  decide (0 < s.num_candidates) && ! s.trigger_pending

/-- The two ways the handler's per-base-bin cycle touches this state: the
append of the accumulated base bin into `buffer_analysis`
(`AnalysisHandler.update`), and a further `open_trigger_window` call from
`process_triggers` when a higher trigger arrives. -/
inductive HandlerAction where
  | appendBin (row : ℕ → ℕ)
  | openWindow

def stepAction (s : HandlerTriggerState) : HandlerAction → HandlerTriggerState
  | .appendBin row => { s with buffer_analysis := s.buffer_analysis.append row }
  | .openWindow => s.open_trigger_window

def runActions (s : HandlerTriggerState) (acts : List HandlerAction) : HandlerTriggerState :=
  acts.foldl stepAction s

end HandlerTriggerState

/-! ## Analysis geometry (`Analysis.__init__`, analysis.py:835-908)

All index fields are cumulative offsets from the handler-supplied starting
index `idx` (`_idx_bgt`); each region length is `int(duration / base_binsize)`
(floor, as all quantities are nonnegative). -/

structure AnalysisGeom where
  binsize : ℕ
  base_binsize : ℕ
  offset : ℕ
  idx : ℕ
  dur_bgl : ℕ
  dur_bgt : ℕ
  dur_exl : ℕ
  dur_ext : ℕ

namespace AnalysisGeom

/-- `self._rebin_factor = int(self._binsize / config.base_binsize)`. -/
def rebin_factor (g : AnalysisGeom) : ℕ := g.binsize / g.base_binsize

/-- `self._idx_bgt = idx` (trailing background). -/
def idx_bgt (g : AnalysisGeom) : ℕ := g.idx

/-- `self._idx_ext = self._idx_bgt + int(config.duration_bgt_ms / self._base_binsize)`. -/
def idx_ext (g : AnalysisGeom) : ℕ := g.idx_bgt + g.dur_bgt / g.base_binsize

/-- `self._idx_sw = self._idx_ext + int(config.duration_ext_ms / self._base_binsize)`. -/
def idx_sw (g : AnalysisGeom) : ℕ := g.idx_ext + g.dur_ext / g.base_binsize

/-- `self._idx_exl = self._idx_sw + int(self.binsize / self._base_binsize)`. -/
def idx_exl (g : AnalysisGeom) : ℕ := g.idx_sw + g.binsize / g.base_binsize

/-- `self._idx_bgl = self._idx_exl + int(config.duration_exl_ms / self._base_binsize)`. -/
def idx_bgl (g : AnalysisGeom) : ℕ := g.idx_exl + g.dur_exl / g.base_binsize

/-- `self.idx_eod = self._idx_bgl + int(config.duration_bgl_ms / self._base_binsize)`. -/
def idx_eod (g : AnalysisGeom) : ℕ := g.idx_bgl + g.dur_bgl / g.base_binsize

/-- `self.n_to_trigger = self.idx_eod - self.idx_bgt + int(self.offset / config.base_binsize)`. -/
def n_to_trigger (g : AnalysisGeom) : ℕ :=
  g.idx_eod - g.idx_bgt + g.offset / g.base_binsize

/-- `self._nbin_background = (config.duration_bgl_ms + config.duration_bgt_ms) / self._binsize`
(true division — a Python float). -/
def nbin_bg (g : AnalysisGeom) : ℚ :=
  ((g.dur_bgl + g.dur_bgt : ℕ) : ℚ) / (g.binsize : ℚ)

end AnalysisGeom

/-! ## Analysis accumulator state and the incremental sum update
(`AnalysisHandler.update_sums`, analysis.py:525-556)

`hit_sum`, `hit_sum2` and `rate` are `np.uint64` arrays in the source.  The
buffer rows they accumulate are `np.uint16` base bins, so all sums stay far
below `2^64` and the `uint64` arithmetic never wraps; they are therefore
modelled as exact integers (channel-indexed functions `ℕ → ℤ`). -/

structure AnalysisState where
  hit_sum : ℕ → ℤ
  hit_sum2 : ℕ → ℤ
  rate : ℕ → ℤ
  n_accum : ℕ
  n : ℕ

/-- Fresh analysis accumulators: zero sums, `n_accum = 0`, `n = 0`. -/
def AnalysisState.initial : AnalysisState :=
  ⟨fun _ => 0, fun _ => 0, fun _ => 0, 0, 0⟩

/-- `self.buffer_analysis[analysis.idx_x].sum(axis=0)`: the column-wise sum of
the logical buffer rows with indices in `[lo, hi)` (`np.arange(lo, hi)`). -/
def colSum (buf : windowbuffer) (lo hi ch : ℕ) : ℤ :=
  ∑ i in Finset.Ico lo hi, (buf.get i ch : ℤ)

/-- `AnalysisHandler.update_sums` (called once per base-bin append, after the
append): increment `n_accum`; increment `n` while the analysis is not yet
online; when `is_updatable` (i.e. `n_accum == rebin_factor`), slide all six
window sums by one binsize-worth of rows. -/
def update_sums (g : AnalysisGeom) (buf : windowbuffer) (a : AnalysisState) : AnalysisState :=
  let nAccum : ℕ := a.n_accum + 1
  let nNew : ℕ := if g.n_to_trigger ≤ a.n then a.n else a.n + 1
  if nAccum = g.rebin_factor then
    let addbgl : ℕ → ℤ := fun ch => colSum buf (g.idx_eod - g.rebin_factor) g.idx_eod ch
    let subbgl : ℕ → ℤ := fun ch => colSum buf (g.idx_bgl - g.rebin_factor) g.idx_bgl ch
    let addbgt : ℕ → ℤ := fun ch => colSum buf (g.idx_ext - g.rebin_factor) g.idx_ext ch
    let subbgt : ℕ → ℤ := fun ch => colSum buf (g.idx_bgt - g.rebin_factor) g.idx_bgt ch
    let addsw : ℕ → ℤ := fun ch => colSum buf (g.idx_exl - g.rebin_factor) g.idx_exl ch
    let subsw : ℕ → ℤ := fun ch => colSum buf (g.idx_sw - g.rebin_factor) g.idx_sw ch
    { hit_sum := fun ch => a.hit_sum ch + (addbgl ch + addbgt ch) - (subbgl ch + subbgt ch)
      hit_sum2 := fun ch => a.hit_sum2 ch + (addbgl ch ^ 2 + addbgt ch ^ 2)
        - (subbgl ch ^ 2 + subbgt ch ^ 2)
      rate := fun ch => a.rate ch + addsw ch - subsw ch
      n_accum := nAccum
      n := nNew }
  else
    { a with n_accum := nAccum, n := nNew }

/-- One base-bin cycle of `AnalysisHandler.update` for a single analysis: the
accumulated base bin is appended to `buffer_analysis`, then `update_sums`
runs, then `update_analyses` resets the `n_accum` counter (`reset_accum`)
when the analysis was updatable.  (`validate_analysis` and `update_results`,
which also run for online updatable analyses, write only `_dom_status`,
`_ndom`, `dmu`, `var_dmu`, `xi` and `chi2` — none of the fields modelled
here.) -/
def stepBaseBin (g : AnalysisGeom) (st : windowbuffer × AnalysisState) (row : ℕ → ℕ) :
    windowbuffer × AnalysisState :=
  let buf := st.1.append row
  let a := update_sums g buf st.2
  if a.n_accum = g.rebin_factor then (buf, { a with n_accum := 0 }) else (buf, a)

/-- A run of the engine at base-bin granularity, starting from the freshly
constructed handler (zeroed `buffer_analysis` of logical size `size` with
`mult = 2`, zeroed analysis sums). -/
def runBaseBins (size ndom : ℕ) (g : AnalysisGeom) (rows : List (ℕ → ℕ)) :
    windowbuffer × AnalysisState :=
  rows.foldl (stepBaseBin g) (windowbuffer.init size ndom 2, AnalysisState.initial)

/-- Direct (non-incremental) column-wise sum over both background windows,
`Σ over [idx_bgt, idx_ext) plus Σ over [idx_bgl, idx_eod)` — what the spec
says `hit_sum` must equal. -/
def directBGSum (g : AnalysisGeom) (buf : windowbuffer) (ch : ℕ) : ℤ :=
  colSum buf g.idx_bgt g.idx_ext ch + colSum buf g.idx_bgl g.idx_eod ch

/-- Direct column-wise sum over the search window `[idx_sw, idx_exl)` — what
the spec says `rate` must equal. -/
def directSWSum (g : AnalysisGeom) (buf : windowbuffer) (ch : ℕ) : ℤ :=
  colSum buf g.idx_sw g.idx_exl ch

/-! ## Per-channel statistics and `update_results`
(analysis.py:558-587, properties `mean`/`var` at analysis.py:1056-1077) -/

/-- Property `mean`: `self.hit_sum / self.nbin_bg` (float division). -/
def Analysis.mean (g : AnalysisGeom) (a : AnalysisState) (ch : ℕ) : ℚ :=
  (a.hit_sum ch : ℚ) / g.nbin_bg

/-- Property `var`: `((self.nbin_bg * self.hit_sum2) - (self.hit_sum ** 2)) / self.nbin_bg ** 2`. -/
def Analysis.var (g : AnalysisGeom) (a : AnalysisState) (ch : ℕ) : ℚ :=
  (g.nbin_bg * (a.hit_sum2 ch : ℚ) - (a.hit_sum ch : ℚ) ^ 2) / g.nbin_bg ^ 2

/-- The scalar outputs written by `AnalysisHandler.update_results`. -/
structure ResultsOut where
  dmu : FVal
  var_dmu : FVal
  xi : FVal
  chi2 : ℚ
  sum_inv_var : ℚ

/-- `AnalysisHandler.update_results`: over the qualified channels
(`idx = analysis.dom_status`), form the guarded per-channel quotients
(`np.divide(..., out=zeros, where=var > 0)`), sum them, and then divide the
scalars without any guard:
`dmu = S1 / S2`, `var_dmu = 1. / S2`, `xi = dmu / sqrt(var_dmu)`.
`chi2` is the guarded sum with denominator `var + eps * |signal|`. -/
def update_results (ndom : ℕ) (domStatus : ℕ → Bool) (eps : ℕ → ℚ)
    (g : AnalysisGeom) (a : AnalysisState) : ResultsOut :=
  let qualified := (Finset.range ndom).filter (fun c => domStatus c = true)
  let signal : ℕ → ℚ := fun c => (a.rate c : ℚ) - Analysis.mean g a c
  let sum_rate_dev : ℚ := ∑ c in qualified,
    (if 0 < Analysis.var g a c then signal c * eps c / Analysis.var g a c else 0)
  let sum_inv_var : ℚ := ∑ c in qualified,
    (if 0 < Analysis.var g a c then eps c ^ 2 / Analysis.var g a c else 0)
  let dmu := FVal.fdivQ sum_rate_dev sum_inv_var
  let var_dmu := FVal.fdivQ 1 sum_inv_var
  let xi := FVal.fdiv dmu (FVal.fsqrt var_dmu)
  let chi2 : ℚ := ∑ c in qualified,
    (if 0 < Analysis.var g a c + eps c * |signal c| then
      ((a.rate c : ℚ) - (Analysis.mean g a c + eps c * signal c)) ^ 2
        / (Analysis.var g a c + eps c * |signal c|)
    else 0)
  ⟨dmu, var_dmu, xi, chi2, sum_inv_var⟩

/-! ## Primary trigger (`trigger.py`, class `PrimaryTrigger`) -/

/-- The fields of `Analysis` read by `PrimaryTrigger.check`: the accumulation
counter behind `is_triggerable` (`self.n_accum == 0`, analysis.py:1020) and
the last computed test statistic `xi`. -/
structure AnalysisTS where
  n_accum : ℕ
  xi : FVal

/-- Property `is_triggerable`: `self.n_accum == 0`. -/
def AnalysisTS.is_triggerable (a : AnalysisTS) : Bool := a.n_accum == 0

namespace PrimaryTrigger

/-- Class attribute `threshold = 4.0`. -/
def threshold : ℚ := 4

/-- `PrimaryTrigger.check`: `ana.is_triggerable and ana.xi > 4`
(trigger.py:50 — note the hard-coded literal `4` and the strict `>`). -/
def check (ana : AnalysisTS) : Bool :=
  ana.is_triggerable && FVal.fgt ana.xi (FVal.fin 4)

end PrimaryTrigger

/-! ## Fast-response trigger (`trigger.py`, class `FastResponseTrigger`)

Datetimes (`np.datetime64`) are modelled by their internal signed 64-bit
nanosecond count; `NaT` (returned by `trigger_datetime64` for an offline
analysis) is `Option.none`, and every `NaT` comparison is false, as in numpy. -/

structure AnalysisFR where
  n_accum : ℕ
  n : ℕ
  n_to_trigger : ℕ
  utime_sw : ℤ
  year_start_ns : ℤ
  binsize : ℕ

namespace AnalysisFR

/-- Property `is_triggerable`: `self.n_accum == 0`. -/
def is_triggerable (a : AnalysisFR) : Bool := a.n_accum == 0

/-- Property `is_online`: `self.n >= self.n_to_trigger`. -/
def is_online (a : AnalysisFR) : Bool := a.n_to_trigger ≤ a.n

/-- Property `trigger_datetime64`:
`utime_to_datetime64(self.utime_sw, year=self.year)` if online, else `NaT`.
`utime_to_datetime64` is year start plus `utime // 10` nanoseconds (the utime
is in units of 0.1 ns; `//` is Python floor division). -/
def trigger_datetime64 (a : AnalysisFR) : Option ℤ :=
  if a.is_online then some (a.year_start_ns + Int.fdiv a.utime_sw 10) else none

end AnalysisFR

/-- `<` on datetime64 values as numpy evaluates it: any comparison involving
`NaT` is false. -/
def dtLt : Option ℤ → Option ℤ → Bool
  | some x, some y => decide (x < y)
  | _, _ => false

/-- `NaT`-propagating addition of a timedelta to a datetime64. -/
def dtAdd (x : Option ℤ) (d : ℤ) : Option ℤ := x.map (· + d)

/-- numpy has no `bitwise_and` ufunc loop for `datetime64` operands: the
expression `cls.trigger_time & cls.trigger_time` raises `TypeError`. -/
def npDatetimeBitAnd (_x _y : ℤ) : Except PyError ℤ := .error .typeError

namespace FastResponseTrigger

/-- `FastResponseTrigger.check` (trigger.py:70-89).  The source expression

```
trigger_time_matches = (ana_time < cls.trigger_time &
                        cls.trigger_time < ana_time + np.timedelta64(ana.binsize, 'ms'))
```

is, by Python precedence, the chained comparison
`ana_time < (cls.trigger_time & cls.trigger_time) < ana_time + ...`, whose
middle operand applies `&` to two `datetime64` values.  Python evaluates the
middle operand first, so the chain raises before any comparison happens. -/
def check (trigger_time : ℤ) (ana : AnalysisFR) : Except PyError Bool :=
  if ! ana.is_triggerable then .ok false
  else do
    let anaTime := ana.trigger_datetime64
    let mid ← npDatetimeBitAnd trigger_time trigger_time
    pure (dtLt anaTime (some mid) &&
      dtLt (some mid) (dtAdd anaTime ((ana.binsize : ℤ) * 1000000)))

end FastResponseTrigger

/-- The window-containment condition exactly as claim C3 words it: the trigger
time `T` lies in `(utime_sw − B, utime_sw]` where `B` is the analysis binsize
— written here on the datetime64 (nanosecond) axis used by `check`. -/
def c3ClaimWindow (trigger_time : ℤ) (ana : AnalysisFR) : Prop :=
  (ana.year_start_ns + Int.fdiv ana.utime_sw 10) - (ana.binsize : ℤ) * 1000000 < trigger_time
    ∧ trigger_time ≤ ana.year_start_ns + Int.fdiv ana.utime_sw 10

/-! ## The ξ-history buffer (`AnalysisHandler.__init__`, analysis.py:317) -/

/-- `self.buffer_xi = windowbuffer(size=config.dur_signi_buffer, ndom=len(self.config.binsize_ms), dtype=np.float64)`:
the size argument is the raw duration in ms (600000), not a bin count. -/
def bufferXi (c : AnalysisConfig) : windowbuffer :=
  windowbuffer.init AnalysisConfig.dur_signi_buffer c.binsize_ms.length 2

/-- The handler fields relevant to the ξ-history claim. -/
structure HandlerXiState where
  buffer_analysis : windowbuffer
  buffer_xi : windowbuffer
  analyses : List (AnalysisGeom × AnalysisState)

/-- `AnalysisHandler.update_analyses` (analysis.py:511-523): per analysis,
advance `utime_sw`, run `update_sums`, run validation and `update_results`
when online and updatable, and reset the accumulation counter.  No statement
in the body (nor in `validate_analysis` or `update_results`) touches
`self.buffer_xi`. -/
def handlerUpdateAnalyses (h : HandlerXiState) : HandlerXiState :=
  { h with analyses := h.analyses.map fun (g, a) =>
      let a1 := update_sums g h.buffer_analysis a
      (g, if a1.n_accum = g.rebin_factor then { a1 with n_accum := 0 } else a1) }

/-! ## The 2 ms rebinner (`DataHandler.rebin_scalers`, datahandler.py:284-329)

`_scaler_udt = int(250 * 2**16)` (one detector clock tick, 0.1 ns units),
`_raw_udt = int(2 * 1e7)` (one 2 ms column), `_staging_depth = 4000`.
`raw_counts` is a `np.uint8` array, so every count operation wraps mod 256
(`u8add`, `u8sub`).  `self._raw_utime` is the arithmetic grid
`t0 + i * _raw_udt` (set up in `main.py` and advanced by `_raw_udt`). -/

def scaler_udt : ℕ := 250 * 65536

def raw_udt : ℕ := 20000000

def staging_depth : ℕ := 4000

/-- The staging time grid `self._raw_utime`. -/
def rawUtimes (t0 : ℕ) : List ℕ :=
  (List.range staging_depth).map (fun i => t0 + i * raw_udt)

/-- `np.searchsorted(l, v, side='left')` on a sorted list: the number of
elements strictly below `v`. -/
def searchsortedLeft (l : List ℕ) (v : ℕ) : ℕ :=
  (l.filter (fun x => decide (x < v))).length

/-- uint8 addition (wraps mod 256). -/
def u8add (a b : ℕ) : ℕ := (a + b) % 256

/-- uint8 subtraction (wraps mod 256). -/
def u8sub (a b : ℕ) : ℕ := (((a : ℤ) - (b : ℤ)) % 256).toNat

/-- `np.uint8` applied to a nonnegative float: truncate toward zero, wrap mod
256.  The source computes its argument `0.5 + frac*scalers[...]` in float64;
the model computes it exactly in `ℚ`.  No theorem below depends on the
rounded value itself (the moved amount is subtracted on one side and added on
the other), and the one concrete evaluation sits far from a rounding
boundary, where float64 and exact arithmetic agree. -/
def u8ofFloat (q : ℚ) : ℕ := (intTrunc q).toNat % 256

/-- `np.add.at(f, idx, val)`: unbuffered scatter-add — duplicate indices
accumulate. -/
def scatterAdd (f : ℕ → ℕ) (ps : List (ℕ × ℕ)) : ℕ → ℕ :=
  ps.foldl (fun g p => fun j => if j = p.1 then u8add (g p.1) p.2 else g j) f

/-- Fancy-indexed assignment `f[idx] = vals` with values computed beforehand:
each pair overwrites, later duplicates win. -/
def fancyAssign (f : ℕ → ℕ) (ps : List (ℕ × ℕ)) : ℕ → ℕ :=
  ps.foldl (fun g p => fun j => if j = p.1 then p.2 else g j) f

/-- `idx_sclr = scalers.nonzero()[0]`: indices of the nonzero payload bytes. -/
def rebinIdxSclr (scalers : List ℕ) : List ℕ :=
  (List.range scalers.length).filter (fun k => ¬ scalers.getD k 0 = 0)

/-- `scaler_utime = utime + idx_sclr * self._scaler_udt` (per tick `k`). -/
def rebinSu (u k : ℕ) : ℕ := u + k * scaler_udt

/-- `idx_raw = self._raw_utime.searchsorted(scaler_utime, side="left") - 1`.
numpy's result is a (possibly `-1`) signed integer; the model's `Nat`
subtraction agrees with it whenever `t0 < utime` (an earlier payload would be
scatter-added at the wrapped index `-1`, i.e. the last column). -/
def rebinIdxRaw (t0 u k : ℕ) : ℕ :=
  searchsortedLeft (rawUtimes t0) (rebinSu u k) - 1

/-- `self._raw_utime[i]`. -/
def rawU (t0 i : ℕ) : ℕ := t0 + i * raw_udt

/-- `np.add.at(raw_counts, idx_raw, scalers[idx_sclr])` applied to the zeroed
uint8 array. -/
def rebinCounts1 (t0 u : ℕ) (scalers : List ℕ) : ℕ → ℕ :=
  scatterAdd (fun _ => 0)
    ((rebinIdxSclr scalers).map (fun k => (rebinIdxRaw t0 u k, scalers.getD k 0)))

/-- The boundary-crossing cut:
`(scaler_utime + udt > raw_utime[idx_raw] + raw_udt) & (scaler_utime < raw_utime[idx_raw] + raw_udt)`. -/
def rebinCutList (t0 u : ℕ) (scalers : List ℕ) : List ℕ :=
  (rebinIdxSclr scalers).filter (fun k =>
    decide (rawU t0 (rebinIdxRaw t0 u k) + raw_udt < rebinSu u k + scaler_udt) &&
      decide (rebinSu u k < rawU t0 (rebinIdxRaw t0 u k) + raw_udt))

/-- `frac = 1. - ((raw_utime[idx_raw] + raw_udt - scaler_utime[cut]) / scaler_udt)`. -/
def rebinFrac (t0 u k : ℕ) : ℚ :=
  1 - ((rawU t0 (rebinIdxRaw t0 u k) + raw_udt - rebinSu u k : ℕ) : ℚ) / (scaler_udt : ℚ)

/-- `np.uint8(0.5 + frac * scalers[idx_sclr])`, the moved amount per crossing
tick. -/
def rebinMoved (t0 u : ℕ) (scalers : List ℕ) (k : ℕ) : ℕ :=
  u8ofFloat (1 / 2 + rebinFrac t0 u k * (scalers.getD k 0 : ℚ))

/-- `raw_counts[idx_raw] -= np.uint8(0.5 + frac * scalers[idx_sclr])`: a
fancy-indexed assignment whose right-hand side gathers from `raw_counts`
before any element is written. -/
def rebinCounts2 (t0 u : ℕ) (scalers : List ℕ) : ℕ → ℕ :=
  fancyAssign (rebinCounts1 t0 u scalers)
    ((rebinCutList t0 u scalers).map (fun k =>
      (rebinIdxRaw t0 u k,
        u8sub (rebinCounts1 t0 u scalers (rebinIdxRaw t0 u k)) (rebinMoved t0 u scalers k))))

/-- `raw_counts[idx_raw+1] += np.uint8(0.5 + frac * scalers[idx_sclr])`. -/
def rebinCounts3 (t0 u : ℕ) (scalers : List ℕ) : ℕ → ℕ :=
  fancyAssign (rebinCounts2 t0 u scalers)
    ((rebinCutList t0 u scalers).map (fun k =>
      (rebinIdxRaw t0 u k + 1,
        u8add (rebinCounts2 t0 u scalers (rebinIdxRaw t0 u k + 1)) (rebinMoved t0 u scalers k))))

/-- `idx_raw = raw_counts.nonzero()[0]` on the final array. -/
def rebinOutIdx (t0 u : ℕ) (scalers : List ℕ) : List ℕ :=
  (List.range staging_depth).filter (fun j => ¬ rebinCounts3 t0 u scalers j = 0)

/-- `DataHandler.rebin_scalers(self, utime, scaler_bytes)`; returns the pair
`(raw_counts[nonzero], nonzero indices)`.  `t0` is `self._raw_utime[0]`. -/
def rebinScalers (t0 u : ℕ) (scalers : List ℕ) : List ℕ × List ℕ :=
  if (rebinIdxSclr scalers).length = 0 then ([], [])
  else ((rebinOutIdx t0 u scalers).map (rebinCounts3 t0 u scalers), rebinOutIdx t0 u scalers)

/-- Total of the uint8 staging array over all `staging_depth` columns, in
`ZMod 256` (the ring in which uint8 arithmetic is exact). -/
def totalZ (f : ℕ → ℕ) : ZMod 256 :=
  ((List.range staging_depth).map (fun j => (f j : ZMod 256))).sum

/-! ## Padded row history

Specification device for the buffer theorems: the logical window of the
analysis buffer after appending `rows` to a freshly initialised buffer of
logical size `size` is a length-`size` slice of the "history" consisting of
`size` zero rows followed by `rows`. -/

/-- Count at channel `ch` of history entry `j`: zero for the initial padding
(`j < size`), else row `j - size` of the appended rows. -/
def histCount (size : ℕ) (rows : List (ℕ → ℕ)) (j ch : ℕ) : ℕ :=
  (List.replicate size (fun _ => (0 : ℕ)) ++ rows).getD j (fun _ => 0) ch

/-- Sum of `len` consecutive history counts starting at offset `o`. -/
def histSum (size : ℕ) (rows : List (ℕ → ℕ)) (o len ch : ℕ) : ℤ :=
  ∑ i in Finset.range len, (histCount size rows (o + i) ch : ℤ)

end Sndaq

namespace Sndaq

namespace windowbuffer

@[simp] theorem buflen_resetBuf (b : windowbuffer) : b.resetBuf.buflen = b.buflen := rfl

@[simp] theorem size_resetBuf (b : windowbuffer) : b.resetBuf.size = b.size := rfl

@[simp] theorem n_resetBuf (b : windowbuffer) : b.resetBuf.n = b.n := rfl

theorem size_append (e : ℕ → ℕ) (b : windowbuffer) : (b.append e).size = b.size := by
  unfold append writeAt
  split <;> split <;> rfl

theorem mult_append (e : ℕ → ℕ) (b : windowbuffer) : (b.append e).mult = b.mult := by
  unfold append writeAt
  split <;> split <;> rfl

theorem buflen_append (e : ℕ → ℕ) (b : windowbuffer) : (b.append e).buflen = b.buflen := by
  unfold buflen
  rw [size_append, mult_append]

/-- The saturating counter dynamics of `_n`: an append increments `_n`
exactly when the buffer is not yet `filled`. -/
theorem n_append (e : ℕ → ℕ) (b : windowbuffer) :
    (b.append e).n = if b.buflen ≤ b.n then b.n else b.n + 1 := by
  unfold append writeAt
  split <;> split <;> simp_all [filled, buflen, resetBuf] <;> split <;> omega

theorem n_appendList (rows : List (ℕ → ℕ)) (b : windowbuffer) :
    (appendList rows b).n = min (b.n + rows.length) (max b.n b.buflen) := by
  induction rows generalizing b with
  | nil =>
    simp only [appendList, List.foldl_nil, List.length_nil, Nat.add_zero]
    omega
  | cons r rs ih =>
    have hstep : appendList (r :: rs) b = appendList rs (b.append r) := rfl
    rw [hstep, ih, n_append, buflen_append]
    by_cases h : b.buflen ≤ b.n <;> simp [h] <;> omega

theorem WF_init (size ndom mult : ℕ) (hm : 1 ≤ mult) : WF (init size ndom mult) := by
  refine ⟨le_refl _, ?_⟩
  show size ≤ size * mult
  calc size = size * 1 := (Nat.mul_one size).symm
    _ ≤ size * mult := Nat.mul_le_mul_left size hm

theorem WF_append (e : ℕ → ℕ) (b : windowbuffer) (hb : WF b) (hs : 1 ≤ b.size)
    (hm : 2 ≤ b.mult) : WF (b.append e) := by
  obtain ⟨h1, h2⟩ := hb
  have hsm : b.size + 1 ≤ b.buflen := by
    have h2' : b.size * 2 ≤ b.size * b.mult := Nat.mul_le_mul_left _ hm
    show b.size + 1 ≤ b.size * b.mult
    omega
  have h2'' : b.idx ≤ b.size * b.mult := h2
  unfold append writeAt
  split <;> split <;>
    (refine ⟨?_, ?_⟩ <;> simp_all [resetBuf, buflen] <;> omega)

/-- A change to `_n` alone does not move the logical window: `get` after an
`append` reads the written backing array through the updated index. -/
theorem get_append_eq_writeAt (e : ℕ → ℕ) (b : windowbuffer) (i : ℕ) :
    (b.append e).get i =
      (writeAt e (if b.buflen ≤ b.idx then b.resetBuf else b)).get i := by
  unfold append get
  split <;> split <;> rfl

/-- One append shifts the logical window left by one: position `i` now shows
what position `i+1` showed, and the newest row sits at position `_size - 1`.
This is exact also across the mirror-copy `_reset`. -/
theorem get_append (e : ℕ → ℕ) (b : windowbuffer) (hb : WF b) (hs : 1 ≤ b.size)
    (i : ℕ) (hi : i < b.size) :
    (b.append e).get i = if i + 1 = b.size then e else b.get (i + 1) := by
  obtain ⟨h1, h2⟩ := hb
  rw [get_append_eq_writeAt]
  by_cases hr : b.buflen ≤ b.idx
  · -- reset occurred: `_idx = _buflen`, rewound to `_size`, write at `_size`
    have hidx : b.idx = b.buflen := le_antisymm h2 hr
    rw [if_pos hr]
    unfold get writeAt resetBuf
    dsimp only
    have harith : b.size + 1 - b.size + i = i + 1 := by omega
    rw [harith]
    rcases Nat.lt_or_ge (i + 1) b.size with hlt | hge
    · have hne : ¬ i + 1 = b.size := by omega
      simp only [if_neg hne, if_pos hlt, hidx]
    · have heq : i + 1 = b.size := by omega
      simp only [if_pos heq]
  · rw [if_neg hr]
    unfold get writeAt
    dsimp only
    have harith : b.idx + 1 - b.size + i = b.idx - b.size + (i + 1) := by omega
    rw [harith]
    rcases Nat.lt_or_ge (i + 1) b.size with hlt | hge
    · have hne : ¬ i + 1 = b.size := by omega
      have hne2 : ¬ (b.idx - b.size + (i + 1) = b.idx) := by omega
      simp only [if_neg hne, if_neg hne2]
    · have heq : i + 1 = b.size := by omega
      have heq2 : b.idx - b.size + (i + 1) = b.idx := by omega
      simp only [if_pos heq, if_pos heq2]

theorem WF_appendList (rows : List (ℕ → ℕ)) (b : windowbuffer) (hb : WF b)
    (hs : 1 ≤ b.size) (hm : 2 ≤ b.mult) : WF (appendList rows b) := by
  induction rows generalizing b with
  | nil => exact hb
  | cons r rs ih =>
    have hstep : appendList (r :: rs) b = appendList rs (b.append r) := rfl
    rw [hstep]
    exact ih _ (WF_append r b hb hs hm) (by rwa [size_append]) (by rwa [mult_append])

theorem size_appendList (rows : List (ℕ → ℕ)) (b : windowbuffer) :
    (appendList rows b).size = b.size := by
  induction rows generalizing b with
  | nil => rfl
  | cons r rs ih =>
    have hstep : appendList (r :: rs) b = appendList rs (b.append r) := rfl
    rw [hstep, ih, size_append]

theorem mult_appendList (rows : List (ℕ → ℕ)) (b : windowbuffer) :
    (appendList rows b).mult = b.mult := by
  induction rows generalizing b with
  | nil => rfl
  | cons r rs ih =>
    have hstep : appendList (r :: rs) b = appendList rs (b.append r) := rfl
    rw [hstep, ih, mult_append]

/-- The logical window after appending a list of rows: position `i` shows the
row appended `size - i` steps before the end, or the old window shifted. -/
theorem get_appendList (rows : List (ℕ → ℕ)) (b : windowbuffer) (hb : WF b)
    (hs : 1 ≤ b.size) (hm : 2 ≤ b.mult) (i : ℕ) (hi : i < b.size) :
    (appendList rows b).get i =
      if i + rows.length < b.size then b.get (i + rows.length)
      else rows.getD (i + rows.length - b.size) (fun _ => 0) := by
  induction rows generalizing b i with
  | nil => simp [appendList, hi]
  | cons r rs ih =>
    have hstep : appendList (r :: rs) b = appendList rs (b.append r) := rfl
    rw [hstep]
    have hwf' := WF_append r b hb hs hm
    have hs' : 1 ≤ (b.append r).size := by rwa [size_append]
    have hm' : 2 ≤ (b.append r).mult := by rwa [mult_append]
    have hi' : i < (b.append r).size := by rwa [size_append]
    rw [ih (b.append r) hwf' hs' hm' i hi']
    rw [size_append]
    simp only [List.length_cons]
    rcases Nat.lt_or_ge (i + rs.length) b.size with hlt | hge
    · rw [if_pos hlt, get_append r b hb hs _ hlt]
      rcases Nat.lt_or_ge (i + (rs.length + 1)) b.size with hlt2 | hge2
      · rw [if_neg (by omega), if_pos hlt2]
        congr 1
      · have heq : i + rs.length + 1 = b.size := by omega
        rw [if_pos heq, if_neg (by omega)]
        have h0 : i + (rs.length + 1) - b.size = 0 := by omega
        rw [h0]
        rfl
    · rw [if_neg (by omega), if_neg (by omega)]
      have h1 : i + (rs.length + 1) - b.size = (i + rs.length - b.size) + 1 := by omega
      rw [h1]
      rfl

end windowbuffer

/-! ## Claim C7 — `windowbuffer.filled` and the saturation of `n` -/

/-- C7 counterexample: the claim says `filled` becomes true once `S` rows have
ever been appended.  For a buffer of logical capacity `S = 2` (with the
default backing multiplier `m = 2`), appending 2 rows leaves `filled` false:
`filled` compares `_n` against the physical backing length `m*S`, not `S`. -/
theorem c7_counterexample :
    (windowbuffer.appendList [fun _ => 0, fun _ => 0] (windowbuffer.init 2 1 2)).filled
      = false := by
  rfl

/-- C7 (amended): for a `windowbuffer` of logical capacity `S` over backing
`m*S`, the appended-row counter `n` equals `min(appended, m*S)` — so it does
saturate at `m*S` as claimed — but `filled` becomes true only once `m*S` rows
(not `S` rows) have ever been appended. -/
theorem c7_filled_and_saturation (size ndom mult : ℕ) (rows : List (ℕ → ℕ)) :
    (windowbuffer.appendList rows (windowbuffer.init size ndom mult)).n
        = min rows.length (size * mult) ∧
      ((windowbuffer.appendList rows (windowbuffer.init size ndom mult)).filled = true
        ↔ size * mult ≤ rows.length) := by
  have hn := windowbuffer.n_appendList rows (windowbuffer.init size ndom mult)
  have h0 : (windowbuffer.init size ndom mult).n = 0 := rfl
  have hb : (windowbuffer.init size ndom mult).buflen = size * mult := rfl
  rw [h0, hb] at hn
  have hbl : (windowbuffer.appendList rows (windowbuffer.init size ndom mult)).buflen
      = size * mult := by
    unfold windowbuffer.buflen
    rw [windowbuffer.size_appendList, windowbuffer.mult_appendList]
    rfl
  refine ⟨by rw [hn]; omega, ?_⟩
  unfold windowbuffer.filled
  rw [hbl, hn]
  simp only [decide_eq_true_eq]
  omega

/-! ## Claim C10 — a saturated buffer keeps every trigger window open -/

namespace HandlerTriggerState

/-- Once `buffer_analysis.n` sits at its ceiling, base-bin appends and window
re-opens preserve both the ceiling and `n ≤ _n_trigger_close`. -/
theorem runActions_saturated_invariant (acts : List HandlerAction)
    (s : HandlerTriggerState)
    (h1 : s.buffer_analysis.n = s.buffer_analysis.buflen)
    (h2 : s.buffer_analysis.n ≤ s.n_trigger_close) :
    (runActions s acts).buffer_analysis.n = (runActions s acts).buffer_analysis.buflen ∧
      (runActions s acts).buffer_analysis.n ≤ (runActions s acts).n_trigger_close := by
  induction acts generalizing s with
  | nil => exact ⟨h1, h2⟩
  | cons a rest ih =>
    have hstep : runActions s (a :: rest) = runActions (stepAction s a) rest := rfl
    rw [hstep]
    apply ih
    case h1 =>
      cases a with
      | appendBin row =>
        show (s.buffer_analysis.append row).n = (s.buffer_analysis.append row).buflen
        rw [windowbuffer.n_append, windowbuffer.buflen_append, if_pos (le_of_eq h1.symm), h1]
      | openWindow => exact h1
    case h2 =>
      cases a with
      | appendBin row =>
        show (s.buffer_analysis.append row).n ≤ s.n_trigger_close
        rw [windowbuffer.n_append, if_pos (le_of_eq h1.symm)]
        exact h2
      | openWindow =>
        show s.buffer_analysis.n ≤ s.buffer_analysis.n + s.n_bins_trigger_window
        exact Nat.le_add_right _ _

end HandlerTriggerState

/-- C10: once the analysis buffer's append counter `n` has reached its
saturation value `2*size` (`mult = 2` backing), a trigger window opened by
`open_trigger_window` never closes again: after any further sequence of
base-bin appends and window re-opens, `trigger_pending` (defined as
`buffer_analysis.n <= _n_trigger_close`, where the open set the close point
to `n + _n_bins_trigger_window`) is still true, and therefore
`trigger_finalized` (`len(candidates) > 0 and not trigger_pending`) is false
— a held candidate is never finalized, no matter how many candidates are
held. -/
theorem c10_saturated_window_never_closes (s : HandlerTriggerState)
    (hmult : s.buffer_analysis.mult = 2)
    (hsat : s.buffer_analysis.n = 2 * s.buffer_analysis.size)
    (acts : List HandlerTriggerState.HandlerAction) :
    (HandlerTriggerState.runActions s.open_trigger_window acts).trigger_pending = true ∧
      (HandlerTriggerState.runActions s.open_trigger_window acts).trigger_finalized = false := by
  have h1 : s.open_trigger_window.buffer_analysis.n
      = s.open_trigger_window.buffer_analysis.buflen := by
    show s.buffer_analysis.n = s.buffer_analysis.buflen
    unfold windowbuffer.buflen
    rw [hmult, hsat]
    ring
  have h2 : s.open_trigger_window.buffer_analysis.n
      ≤ s.open_trigger_window.n_trigger_close := by
    show s.buffer_analysis.n ≤ s.buffer_analysis.n + s.n_bins_trigger_window
    exact Nat.le_add_right _ _
  obtain ⟨-, hle⟩ :=
    HandlerTriggerState.runActions_saturated_invariant acts s.open_trigger_window h1 h2
  have hpend : (HandlerTriggerState.runActions s.open_trigger_window acts).trigger_pending
      = true := by
    unfold HandlerTriggerState.trigger_pending
    exact decide_eq_true hle
  refine ⟨hpend, ?_⟩
  unfold HandlerTriggerState.trigger_finalized
  rw [hpend]
  simp

/-- C10 witness: a concrete saturated handler state (logical size 2, backing
4, `n = 4`), one held candidate, a window opened and three further base-bin
cycles with a re-open in between: the window is still pending and the
candidate unfinalized. -/
theorem c10_witness :
    let buf : windowbuffer := ⟨2, 1, 2, 4, 2, fun _ _ => 0⟩
    let s : HandlerTriggerState := ⟨buf, 60, 0, 1⟩
    let acts : List HandlerTriggerState.HandlerAction :=
      [.appendBin (fun _ => 7), .openWindow, .appendBin (fun _ => 3), .appendBin (fun _ => 0)]
    buf.mult = 2 ∧ buf.n = 2 * buf.size ∧
      (HandlerTriggerState.runActions s.open_trigger_window acts).trigger_pending = true ∧
        (HandlerTriggerState.runActions s.open_trigger_window acts).trigger_finalized = false :=
  ⟨rfl, rfl, c10_saturated_window_never_closes ⟨⟨2, 1, 2, 4, 2, fun _ _ => 0⟩, 60, 0, 1⟩ rfl rfl _⟩

/-! ## Claim C5 — bank construction and `use_offsets` -/

/-- C5 counterexample: with `use_offsets = false` and a single binsize
`B = 1000`, the claim demands exactly one analysis (offset 0); the
construction loop never consults `use_offsets` and enumerates two, at offsets
0 and 500. -/
theorem c5_counterexample :
    (analysisBankParams
        ⟨false, true, [1000], 300000, 300000, 15000, 15000, 100, 0, 10000, 0, 10⟩).length = 2 ∧
      (analysisBankParams
          ⟨false, true, [1000], 300000, 300000, 15000, 15000, 100, 0, 10000, 0, 10⟩).map
        (fun t => t.2.1) = [0, 500] ∧
      (2 : ℕ) ≠ 1 := by
  refine ⟨by decide, by decide, by decide⟩

/-- C5 (amended): the bank-construction loop ignores `use_offsets` entirely —
the enumerated bank is identical for both flag values — and for every binsize
`B` (positive, a multiple of 500, below the `uint16` cast bound) it
enumerates exactly `B/500` analyses per binsize, at offsets
`0, 500, …, B − 500`, whether or not offsets were requested. -/
theorem c5_bank_ignores_use_offsets (c : AnalysisConfig) (u : Bool) (B : ℕ)
    (hpos : 0 < B) (hlt : B < 65536) (hdvd : 500 ∣ B) :
    analysisBankParams { c with use_offsets := u }
        = analysisBankParams { c with use_offsets := !u } ∧
      (offsetsFor (B % 65536)).length = B / 500 ∧
      offsetsFor (B % 65536) = (List.range (B / 500)).map (· * 500) := by
  have hmod : B % 65536 = B := Nat.mod_eq_of_lt hlt
  obtain ⟨k, rfl⟩ := hdvd
  have harg : (500 * k + 499) / 500 = 500 * k / 500 := by omega
  refine ⟨rfl, ?_, ?_⟩
  · unfold offsetsFor
    rw [List.length_map, List.length_range, hmod]
    omega
  · unfold offsetsFor
    rw [hmod, harg]

/-- C5 witness: for `B = 1500` the loop enumerates three analyses at offsets
0, 500, 1000 for a singleton-binsize configuration, independently of
`use_offsets`. -/
theorem c5_witness :
    (0 < 1500 ∧ 1500 < 65536 ∧ (500 : ℕ) ∣ 1500) ∧
      (analysisBankParams
            { (⟨true, true, [1500], 300000, 300000, 15000, 15000, 100, 0, 10000, 0, 10⟩ :
              AnalysisConfig) with use_offsets := true }
          = analysisBankParams
            { (⟨true, true, [1500], 300000, 300000, 15000, 15000, 100, 0, 10000, 0, 10⟩ :
              AnalysisConfig) with use_offsets := !true } ∧
        (offsetsFor (1500 % 65536)).length = 1500 / 500 ∧
        offsetsFor (1500 % 65536) = (List.range (1500 / 500)).map (· * 500)) :=
  ⟨⟨by decide, by decide, by decide⟩,
    c5_bank_ignores_use_offsets
      ⟨true, true, [1500], 300000, 300000, 15000, 15000, 100, 0, 10000, 0, 10⟩
      true 1500 (by decide) (by decide) (by decide)⟩

/-! ## Claim C9 — the handler's `Analysis(...)` call raises `TypeError` -/

/-- Binding the handler's keyword arguments against the declared parameters of
`Analysis.__init__` fails: `n_ana` is not a parameter name. -/
theorem pyBindKwargs_handler_call_fails :
    pyBindKwargs analysisInitParamNames handlerAnalysisCallKwargs = .error .typeError := by
  rfl

theorem mapM_bankBuild_error {α : Type} (l : List α) (hl : l ≠ []) :
    (l.mapM (fun t =>
        (do
          let _ ← pyBindKwargs analysisInitParamNames handlerAnalysisCallKwargs
          pure t : Except PyError α))) = .error .typeError := by
  cases l with
  | nil => exact absurd rfl hl
  | cons x xs =>
    rw [List.mapM_cons]
    rfl

/-- C9: for every configuration with at least one (positive, `uint16`-ranged)
binsize, the handler's bank construction raises `TypeError`: the call
`Analysis(config, binning, offset, idx=idx, ndom=..., start_time=..., n_ana=n)`
passes the keyword `n_ana`, which `Analysis.__init__(self, config, binsize,
offset, idx=0, ndom=5160, start_time=0)` does not declare, so no `Analysis`
object is ever created through this interface. -/
theorem c9_handler_init_raises_typeerror (c : AnalysisConfig)
    (hne : c.binsize_ms ≠ [])
    (hbound : ∀ b ∈ c.binsize_ms, 0 < b ∧ b < 65536) :
    buildAnalyses c = .error .typeError := by
  obtain ⟨B, rest, hcons⟩ : ∃ B rest, c.binsize_ms = B :: rest := by
    cases hl : c.binsize_ms with
    | nil => exact absurd hl hne
    | cons x xs => exact ⟨x, xs, rfl⟩
  obtain ⟨hBpos, hBlt⟩ := hbound B (by rw [hcons]; exact List.mem_cons_self _ _)
  have hmod : B % 65536 = B := Nat.mod_eq_of_lt hBlt
  have hoff : offsetsFor (B % 65536) ≠ [] := by
    unfold offsetsFor
    simp only [ne_eq, List.map_eq_nil_iff, List.range_eq_nil]
    omega
  have hbank : analysisBankParams c ≠ [] := by
    unfold analysisBankParams
    rw [hcons, List.flatMap_cons]
    intro hcontra
    obtain ⟨h1, -⟩ := List.append_eq_nil.mp hcontra
    exact hoff (List.map_eq_nil_iff.mp h1)
  unfold buildAnalyses
  exact mapM_bankBuild_error _ hbank

/-- C9 witness: the default-style configuration with binsizes
500, 1500, 4000, 10000 satisfies the hypotheses, and its construction
errors. -/
theorem c9_witness :
    ((⟨true, true, [500, 1500, 4000, 10000], 300000, 300000, 15000, 15000, 100, 0, 10000, 0, 10⟩ :
        AnalysisConfig).binsize_ms ≠ [] ∧
      ∀ b ∈ (⟨true, true, [500, 1500, 4000, 10000], 300000, 300000, 15000, 15000, 100, 0, 10000,
        0, 10⟩ : AnalysisConfig).binsize_ms, 0 < b ∧ b < 65536) ∧
      buildAnalyses
        ⟨true, true, [500, 1500, 4000, 10000], 300000, 300000, 15000, 15000, 100, 0, 10000, 0, 10⟩
        = .error .typeError :=
  ⟨⟨by decide, by decide⟩,
    c9_handler_init_raises_typeerror
      ⟨true, true, [500, 1500, 4000, 10000], 300000, 300000, 15000, 15000, 100, 0, 10000, 0, 10⟩
      (by decide) (by decide)⟩

/-! ## Claim C4 — the primary trigger threshold is strict -/

/-- C4 counterexample: an analysis that is triggerable with `xi` exactly equal
to the threshold 4.0 does `not` meet `PrimaryTrigger.check`, because the
source tests `ana.xi > 4` strictly; the claim says `ξ ≥ 4.0` triggers. -/
theorem c4_counterexample :
    PrimaryTrigger.check ⟨0, FVal.fin 4⟩ = false ∧
      AnalysisTS.is_triggerable ⟨0, FVal.fin 4⟩ = true ∧
      (⟨0, FVal.fin 4⟩ : AnalysisTS).xi = FVal.fin PrimaryTrigger.threshold := by
  refine ⟨by decide, rfl, rfl⟩

/-- C4 (amended): `PrimaryTrigger.check` returns true iff the analysis is
triggerable and its finite ξ is strictly greater than the threshold 4.0; an
analysis with ξ exactly 4.0 does not meet the condition. -/
theorem c4_check_strict (ana : AnalysisTS) (q : ℚ) (hxi : ana.xi = FVal.fin q) :
    PrimaryTrigger.check ana = true ↔
      (ana.is_triggerable = true ∧ PrimaryTrigger.threshold < q) := by
  unfold PrimaryTrigger.check PrimaryTrigger.threshold
  rw [hxi]
  simp [FVal.fgt]

/-- C4 witness: a triggerable analysis with ξ = 5 satisfies the strict
condition and triggers. -/
theorem c4_witness :
    (⟨0, FVal.fin 5⟩ : AnalysisTS).xi = FVal.fin 5 ∧
      (PrimaryTrigger.check ⟨0, FVal.fin 5⟩ = true ↔
        (AnalysisTS.is_triggerable ⟨0, FVal.fin 5⟩ = true ∧ PrimaryTrigger.threshold < 5)) :=
  ⟨rfl, c4_check_strict ⟨0, FVal.fin 5⟩ 5 rfl⟩

/-! ## Claim C2 — ill-conditioned statistics produce NaN, not 0 -/

/-- C2 counterexample: with no qualified channels (so `S₂ = Σ ε²/var = 0`),
`update_results` computes `dmu = 0.0/0.0 = NaN` and `xi = NaN / sqrt(inf) =
NaN` — not the exact 0 the claim requires. -/
theorem c2_counterexample :
    (update_results 2 (fun _ => false) (fun _ => 1)
        ⟨500, 500, 0, 1, 1000, 1000, 500, 500⟩ AnalysisState.initial).xi = FVal.nan ∧
      FVal.nan ≠ FVal.fin 0 := by
  refine ⟨by decide, by decide⟩

/-- C2 (amended): whenever every qualified channel has variance ≤ 0 — in
particular when no channel is qualified — `S₂ = 0`, the unguarded scalar
division makes `ξ = NaN` (not 0, and not an infinity or a finite value), and,
because every float comparison against NaN is false, an analysis carrying
this ξ never meets the primary trigger condition. -/
theorem c2_ill_conditioned_nan (ndom : ℕ) (domStatus : ℕ → Bool) (eps : ℕ → ℚ)
    (g : AnalysisGeom) (a : AnalysisState)
    (hvar : ∀ c, c < ndom → domStatus c = true → Analysis.var g a c ≤ 0) :
    (update_results ndom domStatus eps g a).sum_inv_var = 0 ∧
      (update_results ndom domStatus eps g a).xi = FVal.nan ∧
      ∀ ts : AnalysisTS, ts.xi = (update_results ndom domStatus eps g a).xi →
        PrimaryTrigger.check ts = false := by
  have hmem : ∀ c ∈ (Finset.range ndom).filter (fun c => domStatus c = true),
      ¬ 0 < Analysis.var g a c := by
    intro c hc
    obtain ⟨hcr, hcs⟩ := Finset.mem_filter.mp hc
    exact not_lt.mpr (hvar c (Finset.mem_range.mp hcr) hcs)
  have hS2 : (∑ c in (Finset.range ndom).filter (fun c => domStatus c = true),
      (if 0 < Analysis.var g a c then eps c ^ 2 / Analysis.var g a c else 0)) = 0 :=
    Finset.sum_eq_zero fun c hc => if_neg (hmem c hc)
  have hS1 : (∑ c in (Finset.range ndom).filter (fun c => domStatus c = true),
      (if 0 < Analysis.var g a c then
        ((a.rate c : ℚ) - Analysis.mean g a c) * eps c / Analysis.var g a c else 0)) = 0 :=
    Finset.sum_eq_zero fun c hc => if_neg (hmem c hc)
  have hout : (update_results ndom domStatus eps g a).sum_inv_var = 0 ∧
      (update_results ndom domStatus eps g a).xi = FVal.nan := by
    unfold update_results
    dsimp only
    rw [hS1, hS2]
    refine ⟨rfl, ?_⟩
    norm_num [FVal.fdivQ, FVal.fsqrt, FVal.fdiv]
  refine ⟨hout.1, hout.2, ?_⟩
  intro ts hts
  rw [hout.2] at hts
  unfold PrimaryTrigger.check
  rw [hts]
  show (ts.is_triggerable && FVal.fgt FVal.nan (FVal.fin 4)) = false
  rw [show FVal.fgt FVal.nan (FVal.fin 4) = false from rfl]
  exact Bool.and_false _

/-- C2 witness: a two-channel analysis in which channel 0 is qualified with
variance 0 (zero sums) and channel 1 is unqualified: `S₂ = 0`, ξ is NaN, and
the primary check on that ξ is false. -/
theorem c2_witness :
    (∀ c, c < 2 → (fun ch => ch == 0 : ℕ → Bool) c = true →
      Analysis.var ⟨500, 500, 0, 1, 1000, 1000, 500, 500⟩ AnalysisState.initial c ≤ 0) ∧
      ((update_results 2 (fun ch => ch == 0) (fun _ => 1)
          ⟨500, 500, 0, 1, 1000, 1000, 500, 500⟩ AnalysisState.initial).sum_inv_var = 0 ∧
        (update_results 2 (fun ch => ch == 0) (fun _ => 1)
          ⟨500, 500, 0, 1, 1000, 1000, 500, 500⟩ AnalysisState.initial).xi = FVal.nan ∧
        ∀ ts : AnalysisTS, ts.xi = (update_results 2 (fun ch => ch == 0) (fun _ => 1)
            ⟨500, 500, 0, 1, 1000, 1000, 500, 500⟩ AnalysisState.initial).xi →
          PrimaryTrigger.check ts = false) :=
  ⟨by
    intro c _ _
    show Analysis.var _ AnalysisState.initial c ≤ 0
    unfold Analysis.var AnalysisState.initial
    norm_num,
    c2_ill_conditioned_nan 2 (fun ch => ch == 0) (fun _ => 1)
      ⟨500, 500, 0, 1, 1000, 1000, 500, 500⟩ AnalysisState.initial
      (by
        intro c _ _
        show Analysis.var _ AnalysisState.initial c ≤ 0
        unfold Analysis.var AnalysisState.initial
        norm_num)⟩

/-! ## Claim C8 — no ξ is ever pushed, and the buffer size is 600000 -/

/-- C8: the ξ-history buffer is created with `size = config.dur_signi_buffer`
— the raw duration 600000 ms — while the guard in `get_buffered_xi` treats
its capacity as `dur_signi_buffer // base_binsize = 1200` bins; the two
disagree.  Moreover `update_analyses` (the only per-bin update of the
analyses) never appends anything to `buffer_xi`. -/
theorem c8_xi_history_never_fed (c : AnalysisConfig) (hbase : c.base_binsize = 500)
    (h : HandlerXiState) :
    (bufferXi c).size = 600000 ∧
      AnalysisConfig.dur_signi_buffer / c.base_binsize = 1200 ∧
      (bufferXi c).size ≠ AnalysisConfig.dur_signi_buffer / c.base_binsize ∧
      (handlerUpdateAnalyses h).buffer_xi = h.buffer_xi := by
  refine ⟨rfl, by rw [hbase]; rfl, ?_, rfl⟩
  rw [hbase]
  show (600000 : ℕ) ≠ 1200
  decide

/-- C8 witness: the default binsize list has base binsize 500 and exhibits
the 600000-row buffer; a one-analysis handler state is left with its
`buffer_xi` untouched by `update_analyses`. -/
theorem c8_witness :
    (⟨true, true, [500, 1500], 300000, 300000, 15000, 15000, 100, 0, 10000, 0, 10⟩ :
        AnalysisConfig).base_binsize = 500 ∧
      ((bufferXi
          ⟨true, true, [500, 1500], 300000, 300000, 15000, 15000, 100, 0, 10000, 0, 10⟩).size
          = 600000 ∧
        AnalysisConfig.dur_signi_buffer /
          (⟨true, true, [500, 1500], 300000, 300000, 15000, 15000, 100, 0, 10000, 0, 10⟩ :
            AnalysisConfig).base_binsize = 1200 ∧
        (bufferXi
            ⟨true, true, [500, 1500], 300000, 300000, 15000, 15000, 100, 0, 10000, 0, 10⟩).size
          ≠ AnalysisConfig.dur_signi_buffer /
            (⟨true, true, [500, 1500], 300000, 300000, 15000, 15000, 100, 0, 10000, 0, 10⟩ :
              AnalysisConfig).base_binsize ∧
        (handlerUpdateAnalyses
            ⟨windowbuffer.init 4 1 2, bufferXi
              ⟨true, true, [500, 1500], 300000, 300000, 15000, 15000, 100, 0, 10000, 0, 10⟩,
              [(⟨500, 500, 0, 1, 1000, 1000, 500, 500⟩, AnalysisState.initial)]⟩).buffer_xi
          = (⟨windowbuffer.init 4 1 2, bufferXi
              ⟨true, true, [500, 1500], 300000, 300000, 15000, 15000, 100, 0, 10000, 0, 10⟩,
              [(⟨500, 500, 0, 1, 1000, 1000, 500, 500⟩, AnalysisState.initial)]⟩ :
                HandlerXiState).buffer_xi) :=
  ⟨by decide,
    c8_xi_history_never_fed
      ⟨true, true, [500, 1500], 300000, 300000, 15000, 15000, 100, 0, 10000, 0, 10⟩
      (by decide) _⟩

/-! ## Claim C3 — `FastResponseTrigger.check` raises instead of testing the
window -/

/-- C3 counterexample: a triggerable, online analysis whose claimed window
`(utime_sw − B, utime_sw]` contains the trigger time `T` — the claim demands
`check = true`; the source raises `TypeError` (the chained comparison's
middle operand is `trigger_time & trigger_time`, a `bitwise_and` on
`datetime64`, which numpy rejects), so `check` never returns a boolean at
all. -/
theorem c3_counterexample :
    FastResponseTrigger.check 1000000 ⟨0, 1300, 1200, 10000000, 0, 500⟩
        = .error .typeError ∧
      AnalysisFR.is_triggerable ⟨0, 1300, 1200, 10000000, 0, 500⟩ = true ∧
      AnalysisFR.is_online ⟨0, 1300, 1200, 10000000, 0, 500⟩ = true ∧
      c3ClaimWindow 1000000 ⟨0, 1300, 1200, 10000000, 0, 500⟩ ∧
      (Except.error PyError.typeError ≠ (Except.ok true : Except PyError Bool)) := by
  refine ⟨rfl, rfl, rfl, by constructor <;> decide, fun h => Except.noConfusion h⟩

/-- C3 (amended): `FastResponseTrigger.check` never evaluates the spec's
window test — for every trigger time and analysis it returns false when the
analysis is not triggerable and raises `TypeError` otherwise, because the
expression `ana_time < cls.trigger_time & cls.trigger_time < ana_time + ...`
parses as a chained comparison whose middle operand applies `&` to two
`datetime64` values, which numpy does not support. -/
theorem c3_check_never_true (trigger_time : ℤ) (ana : AnalysisFR) :
    FastResponseTrigger.check trigger_time ana =
      (if ana.is_triggerable = true then .error .typeError else .ok false) := by
  unfold FastResponseTrigger.check
  by_cases h : ana.is_triggerable = true
  · rw [if_pos h]
    rw [show (! ana.is_triggerable) = false by rw [h]; rfl]
    rfl
  · rw [if_neg h]
    have h' : ana.is_triggerable = false := by
      cases hb : ana.is_triggerable
      · rfl
      · exact absurd hb h
    rw [show (! ana.is_triggerable) = true by rw [h']; rfl]
    rfl

/-! ## Claim C1 — the incremental sums match the direct window sums

Infrastructure: the history view of the analysis buffer, stability of history
sums under appending a row, splitting of history sums, and the evaluation of
`colSum` over a freshly-run buffer. -/

theorem histCount_nil (size : ℕ) (j ch : ℕ) : histCount size [] j ch = 0 := by
  unfold histCount
  rcases Nat.lt_or_ge j size with h | h
  · rw [List.append_nil, List.getD_eq_getElem?_getD, List.getElem?_replicate, if_pos h]
    rfl
  · rw [List.append_nil, List.getD_eq_getElem?_getD,
      List.getElem?_eq_none (by simpa using h), Option.getD_none]

theorem histSum_nil (size : ℕ) (o len ch : ℕ) : histSum size [] o len ch = 0 := by
  unfold histSum
  exact Finset.sum_eq_zero fun i _ => by rw [histCount_nil]; rfl

/-- Appending a row does not change history entries strictly below the new
history length `size + rows.length`. -/
theorem histCount_concat (size : ℕ) (rows : List (ℕ → ℕ)) (r : ℕ → ℕ) (j ch : ℕ)
    (hj : j < size + rows.length) :
    histCount size (rows ++ [r]) j ch = histCount size rows j ch := by
  unfold histCount
  rw [← List.append_assoc]
  rw [List.getD_append]
  simp only [List.length_append, List.length_replicate]
  omega

theorem histSum_concat (size : ℕ) (rows : List (ℕ → ℕ)) (r : ℕ → ℕ) (o len ch : ℕ)
    (h : o + len ≤ size + rows.length) :
    histSum size (rows ++ [r]) o len ch = histSum size rows o len ch := by
  unfold histSum
  refine Finset.sum_congr rfl fun i hi => ?_
  rw [histCount_concat]
  have := Finset.mem_range.mp hi
  omega

theorem histSum_split (size : ℕ) (rows : List (ℕ → ℕ)) (o m n ch : ℕ) :
    histSum size rows o (m + n) ch
      = histSum size rows o m ch + histSum size rows (o + m) n ch := by
  unfold histSum
  rw [Finset.sum_range_add]
  congr 1
  refine Finset.sum_congr rfl fun i _ => ?_
  rw [Nat.add_assoc]

/-- The logical window of the run buffer, read through the history. -/
theorem get_run_buffer (size ndom : ℕ) (hs : 1 ≤ size) (rows : List (ℕ → ℕ))
    (i ch : ℕ) (hi : i < size) :
    (windowbuffer.appendList rows (windowbuffer.init size ndom 2)).get i ch
      = histCount size rows (i + rows.length) ch := by
  rw [windowbuffer.get_appendList rows _ (windowbuffer.WF_init size ndom 2 (by omega)) hs
    (le_refl 2) i hi]
  dsimp only [windowbuffer.init]
  unfold histCount
  rcases Nat.lt_or_ge (i + rows.length) size with h | h
  · rw [if_pos h, List.getD_append _ _ _ _ (by simpa using h),
      List.getD_eq_getElem?_getD, List.getElem?_replicate, if_pos h]
    rfl
  · rw [if_neg (by omega), List.getD_append_right _ _ _ _ (by simpa using h)]
    simp only [List.length_replicate]

/-- `colSum` over the run buffer is a history sum at offset
`rows.length + lo`. -/
theorem colSum_run (size ndom : ℕ) (hs : 1 ≤ size) (rows : List (ℕ → ℕ))
    (lo hi ch : ℕ) (hlo : lo ≤ hi) (hhi : hi ≤ size) :
    colSum (windowbuffer.appendList rows (windowbuffer.init size ndom 2)) lo hi ch
      = histSum size rows (rows.length + lo) (hi - lo) ch := by
  unfold colSum histSum
  rw [Finset.sum_Ico_eq_sum_range _ lo hi]
  refine Finset.sum_congr rfl fun i hi' => ?_
  have hir := Finset.mem_range.mp hi'
  rw [get_run_buffer size ndom hs rows (lo + i) ch (by omega)]
  congr 2
  omega

theorem stepBaseBin_fst (g : AnalysisGeom) (st : windowbuffer × AnalysisState)
    (row : ℕ → ℕ) : (stepBaseBin g st row).1 = st.1.append row := by
  unfold stepBaseBin
  dsimp only
  split <;> rfl

theorem runBaseBins_fst_general (g : AnalysisGeom) (rows : List (ℕ → ℕ))
    (st : windowbuffer × AnalysisState) :
    (rows.foldl (stepBaseBin g) st).1 = windowbuffer.appendList rows st.1 := by
  induction rows generalizing st with
  | nil => rfl
  | cons r rs ih =>
    have h1 : (r :: rs).foldl (stepBaseBin g) st = rs.foldl (stepBaseBin g) (stepBaseBin g st r) :=
      rfl
    have h2 : windowbuffer.appendList (r :: rs) st.1
        = windowbuffer.appendList rs (st.1.append r) := rfl
    rw [h1, h2, ih, stepBaseBin_fst]

theorem runBaseBins_fst (size ndom : ℕ) (g : AnalysisGeom) (rows : List (ℕ → ℕ)) :
    (runBaseBins size ndom g rows).1
      = windowbuffer.appendList rows (windowbuffer.init size ndom 2) :=
  runBaseBins_fst_general g rows _

theorem update_sums_not_fire (g : AnalysisGeom) (buf : windowbuffer) (a : AnalysisState)
    (h : ¬ a.n_accum + 1 = g.rebin_factor) :
    update_sums g buf a =
      { a with n_accum := a.n_accum + 1
               n := if g.n_to_trigger ≤ a.n then a.n else a.n + 1 } := by
  unfold update_sums
  dsimp only
  rw [if_neg h]

theorem update_sums_fire (g : AnalysisGeom) (buf : windowbuffer) (a : AnalysisState)
    (h : a.n_accum + 1 = g.rebin_factor) :
    update_sums g buf a =
      { hit_sum := fun ch => a.hit_sum ch
          + (colSum buf (g.idx_eod - g.rebin_factor) g.idx_eod ch
            + colSum buf (g.idx_ext - g.rebin_factor) g.idx_ext ch)
          - (colSum buf (g.idx_bgl - g.rebin_factor) g.idx_bgl ch
            + colSum buf (g.idx_bgt - g.rebin_factor) g.idx_bgt ch)
        hit_sum2 := fun ch => a.hit_sum2 ch
          + (colSum buf (g.idx_eod - g.rebin_factor) g.idx_eod ch ^ 2
            + colSum buf (g.idx_ext - g.rebin_factor) g.idx_ext ch ^ 2)
          - (colSum buf (g.idx_bgl - g.rebin_factor) g.idx_bgl ch ^ 2
            + colSum buf (g.idx_bgt - g.rebin_factor) g.idx_bgt ch ^ 2)
        rate := fun ch => a.rate ch
          + colSum buf (g.idx_exl - g.rebin_factor) g.idx_exl ch
          - colSum buf (g.idx_sw - g.rebin_factor) g.idx_sw ch
        n_accum := a.n_accum + 1
        n := if g.n_to_trigger ≤ a.n then a.n else a.n + 1 } := by
  unfold update_sums
  dsimp only
  rw [if_pos h]

theorem stepBaseBin_snd (g : AnalysisGeom) (st : windowbuffer × AnalysisState) (row : ℕ → ℕ) :
    (stepBaseBin g st row).2 =
      if (update_sums g (st.1.append row) st.2).n_accum = g.rebin_factor then
        { update_sums g (st.1.append row) st.2 with n_accum := 0 }
      else update_sums g (st.1.append row) st.2 := by
  unfold stepBaseBin
  dsimp only
  split <;> simp_all

/-- The run invariant behind claim C1: after `k` base-bin cycles the analysis
sits `k % rebin_factor` appends into its current accumulation cycle, and its
incremental `rate` and `hit_sum` equal the direct window sums taken over the
buffer as it stood at the last completed cycle boundary
(`t = k - k % rebin_factor` appends). -/
theorem c1_run_invariant (size ndom : ℕ) (g : AnalysisGeom)
    (hs : 1 ≤ size) (hR : 1 ≤ g.rebin_factor)
    (hw1 : g.rebin_factor ≤ g.dur_bgt / g.base_binsize)
    (hw2 : g.rebin_factor ≤ g.dur_bgl / g.base_binsize)
    (hidx : g.rebin_factor ≤ g.idx_bgt)
    (heod : g.idx_eod ≤ size)
    (rows : List (ℕ → ℕ)) :
    (runBaseBins size ndom g rows).2.n_accum = rows.length % g.rebin_factor ∧
      ∀ ch,
        (runBaseBins size ndom g rows).2.rate ch
          = histSum size rows (rows.length - rows.length % g.rebin_factor + g.idx_sw)
              g.rebin_factor ch ∧
        (runBaseBins size ndom g rows).2.hit_sum ch
          = histSum size rows (rows.length - rows.length % g.rebin_factor + g.idx_bgt)
              (g.dur_bgt / g.base_binsize) ch
            + histSum size rows (rows.length - rows.length % g.rebin_factor + g.idx_bgl)
              (g.dur_bgl / g.base_binsize) ch := by
  -- geometric facts used throughout, with the region widths abstracted so
  -- that linear arithmetic can use them
  have hexl : g.idx_exl = g.idx_sw + g.rebin_factor := rfl
  have hext : g.idx_ext = g.idx_bgt + g.dur_bgt / g.base_binsize := rfl
  have heodx : g.idx_eod = g.idx_bgl + g.dur_bgl / g.base_binsize := rfl
  have hswx : g.idx_sw = g.idx_ext + g.dur_ext / g.base_binsize := rfl
  have hbglx : g.idx_bgl = g.idx_exl + g.dur_exl / g.base_binsize := rfl
  generalize hw1d : g.dur_bgt / g.base_binsize = w1 at hw1 hext ⊢
  generalize hw2d : g.dur_bgl / g.base_binsize = w2 at hw2 heodx ⊢
  generalize hwe1d : g.dur_ext / g.base_binsize = we1 at hswx
  generalize hwe2d : g.dur_exl / g.base_binsize = we2 at hbglx
  have hbgt_le_sw : g.idx_bgt ≤ g.idx_sw := by omega
  have hexl_le : g.idx_exl ≤ g.idx_eod := by omega
  have hext_le : g.idx_ext ≤ g.idx_sw := by omega
  induction rows using List.reverseRecOn with
  | nil =>
    constructor
    · show (0 : ℕ) = (0 : ℕ) % g.rebin_factor
      rw [Nat.zero_mod]
    · intro ch
      rw [show (runBaseBins size ndom g []).2 = AnalysisState.initial from rfl]
      rw [show (List.length ([] : List (ℕ → ℕ))) = 0 from rfl]
      rw [Nat.zero_mod]
      rw [histSum_nil, histSum_nil, histSum_nil]
      exact ⟨rfl, rfl⟩
  | append_singleton rows r ih =>
    obtain ⟨ihacc, ihsums⟩ := ih
    have hrun : runBaseBins size ndom g (rows ++ [r])
        = stepBaseBin g (runBaseBins size ndom g rows) r := by
      unfold runBaseBins
      rw [List.foldl_append]
      rfl
    have hbuf : (runBaseBins size ndom g rows).1.append r
        = windowbuffer.appendList (rows ++ [r]) (windowbuffer.init size ndom 2) := by
      rw [runBaseBins_fst]
      unfold windowbuffer.appendList
      rw [List.foldl_append]
      rfl
    set k := rows.length with hk
    have hlen' : (rows ++ [r]).length = k + 1 := by
      rw [List.length_append, List.length_singleton]
    set R := g.rebin_factor with hRdef
    have hjlt : k % R < R := Nat.mod_lt _ (by omega)
    have hjle : k % R ≤ k := Nat.mod_le _ _
    by_cases hfire : (k % R) + 1 = R
    · -- the (k+1)-st append completes a cycle: the sums slide
      have hkm : R * (k / R) + k % R = k := Nat.div_add_mod k R
      have hmod1 : (k + 1) % R = 0 := by
        have hsplit : k + 1 = R * (k / R + 1) := by
          rw [Nat.mul_add, Nat.mul_one]
          omega
        rw [hsplit, Nat.mul_mod_right]
      have ht : k + 1 - (k + 1) % R = k + 1 := by rw [hmod1]; omega
      -- the state after the firing update
      have hcond : (update_sums g ((runBaseBins size ndom g rows).1.append r)
          (runBaseBins size ndom g rows).2).n_accum = g.rebin_factor := by
        rw [update_sums_fire _ _ _ (by rw [ihacc]; exact hfire)]
        show (runBaseBins size ndom g rows).2.n_accum + 1 = g.rebin_factor
        rw [ihacc]
        exact hfire
      have hstep : (runBaseBins size ndom g (rows ++ [r])).2 =
          { update_sums g ((runBaseBins size ndom g rows).1.append r)
              (runBaseBins size ndom g rows).2 with n_accum := 0 } := by
        rw [hrun, stepBaseBin_snd, if_pos hcond]
      have hupd := update_sums_fire g ((runBaseBins size ndom g rows).1.append r)
        (runBaseBins size ndom g rows).2 (by rw [ihacc]; exact hfire)
      refine ⟨by rw [hstep, hlen', hmod1], fun ch => ?_⟩
      obtain ⟨ihrate, ihbg⟩ := ihsums ch
      -- abbreviation: the boundary of the previous cycle
      have htprev : k - k % R = k + 1 - R := by omega
      -- colSum over the new buffer as history sums of rows ++ [r]
      have hcol : ∀ lo hi : ℕ, lo ≤ hi → hi ≤ size →
          colSum ((runBaseBins size ndom g rows).1.append r) lo hi ch
            = histSum size (rows ++ [r]) (k + 1 + lo) (hi - lo) ch := by
        intro lo hi h1 h2
        rw [hbuf, colSum_run size ndom hs _ lo hi ch h1 h2, hlen']
      -- the six slid sums
      have haddsw : colSum ((runBaseBins size ndom g rows).1.append r)
          (g.idx_exl - R) g.idx_exl ch = histSum size (rows ++ [r]) (k + 1 + g.idx_sw) R ch := by
        rw [hcol _ _ (Nat.sub_le _ _) (by omega)]
        congr 1 <;> omega
      have hsubsw : colSum ((runBaseBins size ndom g rows).1.append r)
          (g.idx_sw - R) g.idx_sw ch
            = histSum size (rows ++ [r]) (k - k % R + g.idx_sw) R ch := by
        rw [hcol _ _ (Nat.sub_le _ _) (by omega)]
        congr 1 <;> omega
      have hsubsw' : histSum size (rows ++ [r]) (k - k % R + g.idx_sw) R ch
          = histSum size rows (k - k % R + g.idx_sw) R ch := by
        refine histSum_concat _ _ _ _ _ _ (by omega)
      have haddbgt : colSum ((runBaseBins size ndom g rows).1.append r)
          (g.idx_ext - R) g.idx_ext ch
            = histSum size (rows ++ [r]) (k + 1 + g.idx_bgt + (w1 - R)) R
                ch := by
        rw [hcol _ _ (Nat.sub_le _ _) (by omega)]
        congr 1 <;> omega
      have hsubbgt : colSum ((runBaseBins size ndom g rows).1.append r)
          (g.idx_bgt - R) g.idx_bgt ch
            = histSum size (rows ++ [r]) (k - k % R + g.idx_bgt) R ch := by
        rw [hcol _ _ (Nat.sub_le _ _) (by omega)]
        congr 1 <;> omega
      have hsubbgt' : histSum size (rows ++ [r]) (k - k % R + g.idx_bgt) R ch
          = histSum size rows (k - k % R + g.idx_bgt) R ch := by
        refine histSum_concat _ _ _ _ _ _ (by omega)
      have haddbgl : colSum ((runBaseBins size ndom g rows).1.append r)
          (g.idx_eod - R) g.idx_eod ch
            = histSum size (rows ++ [r]) (k + 1 + g.idx_bgl + (w2 - R)) R
                ch := by
        rw [hcol _ _ (Nat.sub_le _ _) (by omega)]
        congr 1 <;> omega
      have hsubbgl : colSum ((runBaseBins size ndom g rows).1.append r)
          (g.idx_bgl - R) g.idx_bgl ch
            = histSum size (rows ++ [r]) (k - k % R + g.idx_bgl) R ch := by
        rw [hcol _ _ (Nat.sub_le _ _) (by omega)]
        congr 1 <;> omega
      have hsubbgl' : histSum size (rows ++ [r]) (k - k % R + g.idx_bgl) R ch
          = histSum size rows (k - k % R + g.idx_bgl) R ch := by
        refine histSum_concat _ _ _ _ _ _ (by omega)
      -- old sums, transported to the extended history and split at the slide
      have hmid1 : histSum size (rows ++ [r]) (k - k % R + g.idx_bgt + R)
          (w1 - R) ch
            = histSum size rows (k - k % R + g.idx_bgt + R) (w1 - R)
                ch := by
        refine histSum_concat _ _ _ _ _ _ (by omega)
      have hmid2 : histSum size (rows ++ [r]) (k - k % R + g.idx_bgl + R)
          (w2 - R) ch
            = histSum size rows (k - k % R + g.idx_bgl + R) (w2 - R)
                ch := by
        refine histSum_concat _ _ _ _ _ _ (by omega)
      have hsplit1 : histSum size rows (k - k % R + g.idx_bgt) (w1) ch
          = histSum size rows (k - k % R + g.idx_bgt) R ch
            + histSum size rows (k - k % R + g.idx_bgt + R) (w1 - R)
                ch := by
        have h := histSum_split size rows (k - k % R + g.idx_bgt) R (w1 - R) ch
        rw [show R + (w1 - R) = w1 by omega] at h
        exact h
      have hsplit2 : histSum size rows (k - k % R + g.idx_bgl) (w2) ch
          = histSum size rows (k - k % R + g.idx_bgl) R ch
            + histSum size rows (k - k % R + g.idx_bgl + R) (w2 - R)
                ch := by
        have h := histSum_split size rows (k - k % R + g.idx_bgl) R (w2 - R) ch
        rw [show R + (w2 - R) = w2 by omega] at h
        exact h
      -- targets, split at the slide
      have htgt1 : histSum size (rows ++ [r]) (k + 1 + g.idx_bgt) (w1) ch
          = histSum size (rows ++ [r]) (k + 1 + g.idx_bgt) (w1 - R) ch
            + histSum size (rows ++ [r])
                (k + 1 + g.idx_bgt + (w1 - R)) R ch := by
        have h := histSum_split size (rows ++ [r]) (k + 1 + g.idx_bgt) (w1 - R) R ch
        rw [show (w1 - R) + R = w1 by omega] at h
        exact h
      have htgt2 : histSum size (rows ++ [r]) (k + 1 + g.idx_bgl) (w2) ch
          = histSum size (rows ++ [r]) (k + 1 + g.idx_bgl) (w2 - R) ch
            + histSum size (rows ++ [r])
                (k + 1 + g.idx_bgl + (w2 - R)) R ch := by
        have h := histSum_split size (rows ++ [r]) (k + 1 + g.idx_bgl) (w2 - R) R ch
        rw [show (w2 - R) + R = w2 by omega] at h
        exact h
      -- middle pieces of the targets, transported back to the old boundary
      have hmidt1 : histSum size (rows ++ [r]) (k + 1 + g.idx_bgt)
          (w1 - R) ch
            = histSum size rows (k - k % R + g.idx_bgt + R) (w1 - R)
                ch := by
        rw [show k + 1 + g.idx_bgt = k - k % R + g.idx_bgt + R by omega]
        exact hmid1
      have hmidt2 : histSum size (rows ++ [r]) (k + 1 + g.idx_bgl)
          (w2 - R) ch
            = histSum size rows (k - k % R + g.idx_bgl + R) (w2 - R)
                ch := by
        rw [show k + 1 + g.idx_bgl = k - k % R + g.idx_bgl + R by omega]
        exact hmid2
      constructor
      · -- the search-window sum
        rw [hstep]
        show (update_sums g _ _).rate ch = _
        rw [hupd]
        dsimp only
        rw [haddsw, hsubsw, hsubsw', ← ihrate, hlen', hmod1]
        rw [show k + 1 - 0 + g.idx_sw = k + 1 + g.idx_sw by omega]
        ring
      · -- the background sum
        rw [hstep]
        show (update_sums g _ _).hit_sum ch = _
        rw [hupd]
        dsimp only
        rw [haddbgl, haddbgt, hsubbgl, hsubbgt, hsubbgl', hsubbgt', hlen', hmod1]
        rw [show k + 1 - 0 + g.idx_bgt = k + 1 + g.idx_bgt by omega,
          show k + 1 - 0 + g.idx_bgl = k + 1 + g.idx_bgl by omega]
        rw [htgt1, htgt2, hmidt1, hmidt2, ihbg, hsplit1, hsplit2]
        ring
    · -- a mid-cycle append: the sums are untouched
      have hmod1 : (k + 1) % R = k % R + 1 := by
        rcases Nat.lt_or_ge 1 R with hR2 | hR1
        · rw [Nat.add_mod, Nat.mod_eq_of_lt hR2, Nat.mod_eq_of_lt (by omega)]
        · have hR1' : R = 1 := by omega
          rw [hR1'] at hfire ⊢
          omega
      have hcond : ¬ (update_sums g ((runBaseBins size ndom g rows).1.append r)
          (runBaseBins size ndom g rows).2).n_accum = g.rebin_factor := by
        rw [update_sums_not_fire _ _ _ (by rw [ihacc]; exact hfire)]
        show ¬ (runBaseBins size ndom g rows).2.n_accum + 1 = g.rebin_factor
        rw [ihacc]
        exact hfire
      have hstep : (runBaseBins size ndom g (rows ++ [r])).2 =
          update_sums g ((runBaseBins size ndom g rows).1.append r)
            (runBaseBins size ndom g rows).2 := by
        rw [hrun, stepBaseBin_snd, if_neg hcond]
      have hupd := update_sums_not_fire g ((runBaseBins size ndom g rows).1.append r)
        (runBaseBins size ndom g rows).2 (by rw [ihacc]; exact hfire)
      refine ⟨by rw [hstep, hupd, hlen', hmod1]; dsimp only; rw [ihacc], fun ch => ?_⟩
      obtain ⟨ihrate, ihbg⟩ := ihsums ch
      have hsame : k + 1 - (k + 1) % R = k - k % R := by omega
      constructor
      · rw [hstep, hupd, hlen', hsame]
        show (runBaseBins size ndom g rows).2.rate ch = _
        rw [ihrate]
        refine (histSum_concat _ _ _ _ _ _ (by omega)).symm
      · rw [hstep, hupd, hlen', hsame]
        show (runBaseBins size ndom g rows).2.hit_sum ch = _
        rw [ihbg]
        rw [histSum_concat _ _ _ _ _ _ (by omega), histSum_concat _ _ _ _ _ _ (by omega)]

/-- C1: after every base-bin append followed by a sum update — that is, at
every point where an analysis has just completed a whole number of
`rebin_factor`-append cycles and was therefore updatable — the incrementally
maintained background sum `hit_sum[c]` equals the direct column-wise sum of
the analysis buffer over both background windows, and the search-window sum
`rate[c]` equals the direct sum over the search window, for every channel
`c`.  (The conclusion holds for every updatable analysis whether online or
not; validation and `update_results` write none of the fields involved.) -/
theorem c1_sums_agree_with_direct (size ndom : ℕ) (g : AnalysisGeom)
    (hs : 1 ≤ size) (hR : 1 ≤ g.rebin_factor)
    (hw1 : g.rebin_factor ≤ g.dur_bgt / g.base_binsize)
    (hw2 : g.rebin_factor ≤ g.dur_bgl / g.base_binsize)
    (hidx : g.rebin_factor ≤ g.idx_bgt)
    (heod : g.idx_eod ≤ size)
    (rows : List (ℕ → ℕ)) (hmod : rows.length % g.rebin_factor = 0) (ch : ℕ) :
    (runBaseBins size ndom g rows).2.hit_sum ch
        = directBGSum g (runBaseBins size ndom g rows).1 ch ∧
      (runBaseBins size ndom g rows).2.rate ch
        = directSWSum g (runBaseBins size ndom g rows).1 ch := by
  obtain ⟨-, hsums⟩ := c1_run_invariant size ndom g hs hR hw1 hw2 hidx heod rows
  obtain ⟨hrate, hbg⟩ := hsums ch
  rw [hmod, Nat.sub_zero] at hrate hbg
  have hexl : g.idx_exl = g.idx_sw + g.rebin_factor := rfl
  have hext : g.idx_ext = g.idx_bgt + g.dur_bgt / g.base_binsize := rfl
  have heodx : g.idx_eod = g.idx_bgl + g.dur_bgl / g.base_binsize := rfl
  have hswx : g.idx_sw = g.idx_ext + g.dur_ext / g.base_binsize := rfl
  have hbglx : g.idx_bgl = g.idx_exl + g.dur_exl / g.base_binsize := rfl
  generalize hw1d : g.dur_bgt / g.base_binsize = w1 at hw1 hext hbg
  generalize hw2d : g.dur_bgl / g.base_binsize = w2 at hw2 heodx hbg
  generalize hwe1d : g.dur_ext / g.base_binsize = we1 at hswx
  generalize hwe2d : g.dur_exl / g.base_binsize = we2 at hbglx
  constructor
  · rw [hbg]
    unfold directBGSum
    rw [runBaseBins_fst]
    rw [colSum_run size ndom hs rows g.idx_bgt g.idx_ext ch (by omega) (by omega),
      colSum_run size ndom hs rows g.idx_bgl g.idx_eod ch (by omega) (by omega)]
    rw [show g.idx_ext - g.idx_bgt = w1 by omega,
      show g.idx_eod - g.idx_bgl = w2 by omega,
      Nat.add_comm rows.length g.idx_bgt, Nat.add_comm rows.length g.idx_bgl]
  · rw [hrate]
    unfold directSWSum
    rw [runBaseBins_fst]
    rw [colSum_run size ndom hs rows g.idx_sw g.idx_exl ch (by omega) (by omega)]
    rw [show g.idx_exl - g.idx_sw = g.rebin_factor by omega,
      Nat.add_comm rows.length g.idx_sw]

/-- C1 witness: a one-channel analysis with binsize 500 on base 500
(`rebin_factor = 1`), background windows of 1000 ms and exclusions of 500 ms
in a buffer of logical size 8, run over three concrete base bins. -/
theorem c1_witness :
    (1 ≤ 8 ∧ 1 ≤ (⟨500, 500, 0, 1, 1000, 1000, 500, 500⟩ : AnalysisGeom).rebin_factor ∧
      (⟨500, 500, 0, 1, 1000, 1000, 500, 500⟩ : AnalysisGeom).rebin_factor ≤ 1000 / 500 ∧
      (⟨500, 500, 0, 1, 1000, 1000, 500, 500⟩ : AnalysisGeom).rebin_factor
        ≤ (⟨500, 500, 0, 1, 1000, 1000, 500, 500⟩ : AnalysisGeom).idx_bgt ∧
      (⟨500, 500, 0, 1, 1000, 1000, 500, 500⟩ : AnalysisGeom).idx_eod ≤ 8 ∧
      (([fun _ => 5, fun _ => 3, fun _ => 2] : List (ℕ → ℕ)) : List (ℕ → ℕ)).length %
        (⟨500, 500, 0, 1, 1000, 1000, 500, 500⟩ : AnalysisGeom).rebin_factor = 0) ∧
      ((runBaseBins 8 1 ⟨500, 500, 0, 1, 1000, 1000, 500, 500⟩
            ([fun _ => 5, fun _ => 3, fun _ => 2] : List (ℕ → ℕ))).2.hit_sum 0
          = directBGSum ⟨500, 500, 0, 1, 1000, 1000, 500, 500⟩
              (runBaseBins 8 1 ⟨500, 500, 0, 1, 1000, 1000, 500, 500⟩
                ([fun _ => 5, fun _ => 3, fun _ => 2] : List (ℕ → ℕ))).1 0 ∧
        (runBaseBins 8 1 ⟨500, 500, 0, 1, 1000, 1000, 500, 500⟩
            ([fun _ => 5, fun _ => 3, fun _ => 2] : List (ℕ → ℕ))).2.rate 0
          = directSWSum ⟨500, 500, 0, 1, 1000, 1000, 500, 500⟩
              (runBaseBins 8 1 ⟨500, 500, 0, 1, 1000, 1000, 500, 500⟩
                ([fun _ => 5, fun _ => 3, fun _ => 2] : List (ℕ → ℕ))).1 0) :=
  ⟨⟨by decide, by decide, by decide, by decide, by decide, by decide⟩,
    c1_sums_agree_with_direct 8 1 ⟨500, 500, 0, 1, 1000, 1000, 500, 500⟩
      (by decide) (by decide) (by decide) (by decide) (by decide) (by decide)
      ([fun _ => 5, fun _ => 3, fun _ => 2] : List (ℕ → ℕ)) (by decide) 0⟩

/-! ## Claim C6 — the rebinner and total-count preservation -/

theorem sum_map_filter_nonzero (f : ℕ → ℕ) (l : List ℕ) :
    ((l.filter (fun k => ¬ f k = 0)).map f).sum = (l.map f).sum := by
  induction l with
  | nil => rfl
  | cons x xs ih =>
    rw [List.filter_cons]
    by_cases hx : f x = 0
    · rw [if_neg (by simp [hx]), ih, List.map_cons, List.sum_cons, hx, Nat.zero_add]
    · rw [if_pos (by simp [hx]), List.map_cons, List.map_cons, List.sum_cons, List.sum_cons,
        ih]

theorem sum_map_range_getD (l : List ℕ) :
    ((List.range l.length).map (fun k => l.getD k 0)).sum = l.sum := by
  induction l with
  | nil => rfl
  | cons x xs ih =>
    rw [List.length_cons, List.range_succ_eq_map, List.map_cons, List.map_map, List.sum_cons]
    have hcong : (List.range xs.length).map ((fun k => (x :: xs).getD k 0) ∘ Nat.succ)
        = (List.range xs.length).map (fun k => xs.getD k 0) :=
      List.map_congr_left fun k _ => rfl
    rw [hcong, ih]
    simp [List.sum_cons]

theorem u8add_cast (a b : ℕ) :
    ((u8add a b : ℕ) : ZMod 256) = (a : ZMod 256) + (b : ZMod 256) := by
  unfold u8add
  rw [show (((a + b) % 256 : ℕ) : ZMod 256) = ((a + b : ℕ) : ZMod 256) by
    exact_mod_cast ZMod.natCast_mod (a + b) 256]
  push_cast
  ring

theorem u8sub_cast (a b : ℕ) :
    ((u8sub a b : ℕ) : ZMod 256) = (a : ZMod 256) - (b : ZMod 256) := by
  unfold u8sub
  have h0 : (0 : ℤ) ≤ ((a : ℤ) - (b : ℤ)) % 256 := Int.emod_nonneg _ (by norm_num)
  calc (((((a : ℤ) - (b : ℤ)) % 256).toNat : ℕ) : ZMod 256)
      = ((((((a : ℤ) - (b : ℤ)) % 256).toNat : ℕ) : ℤ) : ZMod 256) := by push_cast; ring
    _ = (((((a : ℤ) - (b : ℤ)) % 256) : ℤ) : ZMod 256) := by rw [Int.toNat_of_nonneg h0]
    _ = ((((a : ℤ) - (b : ℤ)) : ℤ) : ZMod 256) := by exact_mod_cast ZMod.intCast_mod _ _
    _ = (a : ZMod 256) - (b : ZMod 256) := by push_cast; ring

theorem sum_range_update (n j : ℕ) (hj : j < n) (g : ℕ → ZMod 256) (w : ZMod 256) :
    ((List.range n).map (fun x => if x = j then w else g x)).sum
      = ((List.range n).map g).sum + w - g j := by
  induction n with
  | zero => omega
  | succ m ih =>
    rw [List.range_succ, List.map_append, List.map_append, List.sum_append, List.sum_append]
    simp only [List.map_cons, List.map_nil, List.sum_cons, List.sum_nil]
    by_cases hjm : j = m
    · subst hjm
      have hcong : (List.range j).map (fun x => if x = j then w else g x)
          = (List.range j).map g := by
        refine List.map_congr_left fun x hx => ?_
        have := List.mem_range.mp hx
        rw [if_neg (by omega)]
      rw [hcong, if_pos rfl]
      ring
    · have hj' : j < m := by omega
      rw [ih hj', if_neg (by omega : ¬ m = j)]
      ring

theorem totalZ_update (f : ℕ → ℕ) (j v : ℕ) (hj : j < staging_depth) :
    totalZ (fun x => if x = j then v else f x)
      = totalZ f + (v : ZMod 256) - (f j : ZMod 256) := by
  unfold totalZ
  rw [← sum_range_update staging_depth j hj (fun x => (f x : ZMod 256)) (v : ZMod 256)]
  refine congrArg _ (List.map_congr_left fun x _ => ?_)
  by_cases hx : x = j <;> simp [hx]

theorem totalZ_scatterAdd (ps : List (ℕ × ℕ)) (f : ℕ → ℕ)
    (hps : ∀ p ∈ ps, p.1 < staging_depth) :
    totalZ (scatterAdd f ps) = totalZ f + (ps.map (fun p => (p.2 : ZMod 256))).sum := by
  induction ps generalizing f with
  | nil => simp [scatterAdd]
  | cons p rest ih =>
    have hstep : scatterAdd f (p :: rest)
        = scatterAdd (fun j => if j = p.1 then u8add (f p.1) p.2 else f j) rest := rfl
    rw [hstep, ih _ (fun q hq => hps q (List.mem_cons_of_mem _ hq))]
    rw [totalZ_update f p.1 (u8add (f p.1) p.2) (hps p (List.mem_cons_self _ _))]
    rw [u8add_cast]
    simp only [List.map_cons, List.sum_cons]
    ring

theorem totalZ_fancyAssign (ps : List (ℕ × ℕ)) (f : ℕ → ℕ)
    (hps : ∀ p ∈ ps, p.1 < staging_depth)
    (hnd : (ps.map Prod.fst).Nodup) :
    totalZ (fancyAssign f ps)
      = totalZ f + (ps.map (fun p => (p.2 : ZMod 256) - (f p.1 : ZMod 256))).sum := by
  induction ps generalizing f with
  | nil => simp [fancyAssign]
  | cons p rest ih =>
    have hstep : fancyAssign f (p :: rest)
        = fancyAssign (fun j => if j = p.1 then p.2 else f j) rest := rfl
    rw [List.map_cons, List.nodup_cons] at hnd
    have hne : ∀ q ∈ rest, ¬ q.1 = p.1 := by
      intro q hq hcontra
      exact hnd.1 (hcontra ▸ List.mem_map_of_mem Prod.fst hq)
    rw [hstep, ih _ (fun q hq => hps q (List.mem_cons_of_mem _ hq)) hnd.2]
    rw [totalZ_update f p.1 p.2 (hps p (List.mem_cons_self _ _))]
    have hcong : rest.map (fun q => (q.2 : ZMod 256)
          - (((if q.1 = p.1 then p.2 else f q.1) : ℕ) : ZMod 256))
        = rest.map (fun q => (q.2 : ZMod 256) - (f q.1 : ZMod 256)) := by
      refine List.map_congr_left fun q hq => ?_
      rw [if_neg (hne q hq)]
    rw [hcong]
    simp only [List.map_cons, List.sum_cons]
    ring

theorem rebinCutList_mem (t0 u : ℕ) (scalers : List ℕ) (x : ℕ)
    (hx : x ∈ rebinCutList t0 u scalers) :
    x < scalers.length ∧
      rawU t0 (rebinIdxRaw t0 u x) + raw_udt < rebinSu u x + scaler_udt ∧
      rebinSu u x < rawU t0 (rebinIdxRaw t0 u x) + raw_udt := by
  unfold rebinCutList at hx
  obtain ⟨hmem, hcond⟩ := List.mem_filter.mp hx
  rw [Bool.and_eq_true, decide_eq_true_eq, decide_eq_true_eq] at hcond
  refine ⟨?_, hcond.1, hcond.2⟩
  unfold rebinIdxSclr at hmem
  exact List.mem_range.mp (List.mem_filter.mp hmem).1

theorem rebinCutList_pairwise (t0 u : ℕ) (scalers : List ℕ) :
    ((rebinCutList t0 u scalers).map (fun k => rebinIdxRaw t0 u k)).Pairwise (· < ·) := by
  refine (List.pairwise_map).mpr ?_
  have hbase : (rebinCutList t0 u scalers).Pairwise (· < ·) := by
    unfold rebinCutList rebinIdxSclr
    exact ((List.pairwise_lt_range _).filter _).filter _
  refine hbase.imp_of_mem ?_
  intro a b ha hb hab
  obtain ⟨-, ha1, ha2⟩ := rebinCutList_mem t0 u scalers a ha
  obtain ⟨-, hb1, hb2⟩ := rebinCutList_mem t0 u scalers b hb
  have hudt : scaler_udt = 16384000 := rfl
  have hsu : rebinSu u a + scaler_udt ≤ rebinSu u b := by
    unfold rebinSu
    rw [hudt]
    have hab' : a + 1 ≤ b := hab
    nlinarith
  have hchain : rawU t0 (rebinIdxRaw t0 u a) + raw_udt
      < rawU t0 (rebinIdxRaw t0 u b) + raw_udt := by
    calc rawU t0 (rebinIdxRaw t0 u a) + raw_udt < rebinSu u a + scaler_udt := ha1
      _ ≤ rebinSu u b := hsu
      _ < rawU t0 (rebinIdxRaw t0 u b) + raw_udt := hb2
  have hrdt : raw_udt = 20000000 := rfl
  unfold rawU at hchain
  rw [hrdt] at hchain
  by_contra hcontra
  push_neg at hcontra
  nlinarith

theorem rebinIdxRaw_lt (t0 u k : ℕ) : rebinIdxRaw t0 u k < staging_depth := by
  unfold rebinIdxRaw searchsortedLeft
  have hlen : ((rawUtimes t0).filter (fun x => decide (x < rebinSu u k))).length ≤ 4000 := by
    calc ((rawUtimes t0).filter (fun x => decide (x < rebinSu u k))).length
        ≤ (rawUtimes t0).length := List.length_filter_le _ _
      _ = 4000 := by unfold rawUtimes staging_depth; rw [List.length_map, List.length_range]
  show _ - 1 < staging_depth
  unfold staging_depth
  omega

theorem rebinCut_idx_succ_lt (t0 u : ℕ) (scalers : List ℕ)
    (h2 : u + scalers.length * scaler_udt ≤ t0 + 3999 * raw_udt) :
    ∀ k ∈ rebinCutList t0 u scalers, rebinIdxRaw t0 u k + 1 < staging_depth := by
  intro k hk
  obtain ⟨hklen, h1k, -⟩ := rebinCutList_mem t0 u scalers k hk
  have hudt : scaler_udt = 16384000 := rfl
  have hrdt : raw_udt = 20000000 := rfl
  have hsu : rebinSu u k + scaler_udt ≤ t0 + 3999 * raw_udt := by
    unfold rebinSu
    rw [hudt] at h2 ⊢
    rw [hrdt] at h2 ⊢
    nlinarith
  have hlt : rawU t0 (rebinIdxRaw t0 u k) + raw_udt < t0 + 3999 * raw_udt :=
    lt_of_lt_of_le h1k hsu
  unfold rawU at hlt
  rw [hrdt] at hlt
  show rebinIdxRaw t0 u k + 1 < 4000
  nlinarith

theorem cast_sum_range_totalZ (fn : ℕ → ℕ) :
    ((((List.range staging_depth).map fn).sum : ℕ) : ZMod 256) = totalZ fn := by
  unfold totalZ
  rw [Nat.cast_list_sum, List.map_map]
  rfl

theorem sum_map_neg (l : List ℕ) (h : ℕ → ZMod 256) :
    (l.map (fun k => -(h k))).sum = -((l.map h).sum) := by
  induction l with
  | nil => simp
  | cons x xs ih => simp [ih]; ring

theorem u8ofFloat_spec (q : ℚ) (n : ℕ) (h1 : (n : ℚ) ≤ q) (h2 : q < (n : ℚ) + 1)
    (h3 : n < 256) : u8ofFloat q = n := by
  have hq0 : ¬ q < 0 := not_lt.mpr (le_trans (by positivity) h1)
  have hfl : Rat.floor q = (n : ℤ) := by
    have hle : (n : ℤ) ≤ Rat.floor q := Rat.le_floor.mpr (by exact_mod_cast h1)
    have hlt : ¬ ((n : ℤ) + 1 ≤ Rat.floor q) := by
      intro hc
      have hcq := Rat.le_floor.mp hc
      push_cast at hcq
      linarith
    omega
  unfold u8ofFloat intTrunc
  rw [if_neg hq0, hfl]
  simp [Nat.mod_eq_of_lt h3]

set_option maxRecDepth 100000 in
theorem c6ex_idx_sclr : rebinIdxSclr [255, 255] = [0, 1] := by decide

set_option maxRecDepth 100000 in
theorem c6ex_idx_raw0 : rebinIdxRaw 0 1 0 = 0 := by decide

set_option maxRecDepth 100000 in
theorem c6ex_idx_raw1 : rebinIdxRaw 0 1 1 = 0 := by decide

set_option maxRecDepth 100000 in
theorem c6ex_cut : rebinCutList 0 1 [255, 255] = [1] := by decide

theorem c6ex_moved : rebinMoved 0 1 [255, 255] 1 = 199 := by
  unfold rebinMoved
  apply u8ofFloat_spec
  · unfold rebinFrac
    rw [c6ex_idx_raw1]
    norm_num [rawU, rebinSu, raw_udt, scaler_udt, List.getD_cons_succ, List.getD_cons_zero]
  · unfold rebinFrac
    rw [c6ex_idx_raw1]
    norm_num [rawU, rebinSu, raw_udt, scaler_udt, List.getD_cons_succ, List.getD_cons_zero]
  · norm_num

theorem c6ex_counts1 : rebinCounts1 0 1 [255, 255] = fun j => if j = 0 then 254 else 0 := by
  unfold rebinCounts1
  rw [c6ex_idx_sclr]
  simp only [List.map_cons, List.map_nil, c6ex_idx_raw0, c6ex_idx_raw1]
  funext j
  by_cases hj : j = 0
  · subst hj
    simp [scatterAdd, u8add]
  · simp [scatterAdd, u8add, hj]

theorem c6ex_counts2 : rebinCounts2 0 1 [255, 255] = fun j => if j = 0 then 55 else 0 := by
  unfold rebinCounts2
  rw [c6ex_cut]
  simp only [List.map_cons, List.map_nil, c6ex_idx_raw1, c6ex_moved, c6ex_counts1]
  funext j
  by_cases hj : j = 0
  · subst hj
    simp [fancyAssign, u8sub]
  · simp [fancyAssign, u8sub, hj]

theorem c6ex_counts3 : rebinCounts3 0 1 [255, 255]
    = fun j => if j = 1 then 199 else if j = 0 then 55 else 0 := by
  unfold rebinCounts3
  rw [c6ex_cut]
  simp only [List.map_cons, List.map_nil, c6ex_idx_raw1, c6ex_moved, c6ex_counts2]
  funext j
  by_cases hj : j = 1
  · subst hj
    simp [fancyAssign, u8add]
  · by_cases hj0 : j = 0 <;> simp [fancyAssign, u8add, hj, hj0]

set_option maxRecDepth 100000 in
theorem c6ex_outidx : rebinOutIdx 0 1 [255, 255] = [0, 1] := by
  unfold rebinOutIdx
  rw [c6ex_counts3]
  decide

theorem c6ex_value : rebinScalers 0 1 [255, 255] = ([55, 199], [0, 1]) := by
  unfold rebinScalers
  rw [c6ex_idx_sclr, c6ex_outidx, c6ex_counts3]
  decide

/-- C6 counterexample: a payload of two full-count ticks (255 and 255) one
clock tick apart, starting just inside the first 2 ms column.  Both land in
column 0 of the uint8 staging array, wrapping 510 to 254; the crossing tick
moves `round(f*255) = 199` to column 1.  The returned counts are `[55, 199]`
with total 254, not the payload total 510: the claim's "sum to the total of
the payload's per-tick scaler counts" fails (they agree only mod 256). -/
theorem c6_counterexample :
    rebinScalers 0 1 [255, 255] = ([55, 199], [0, 1]) ∧
      (rebinScalers 0 1 [255, 255]).1.sum = 254 ∧
      ([255, 255] : List ℕ).sum = 510 ∧ (254 : ℕ) ≠ 510 :=
  ⟨c6ex_value, by rw [c6ex_value]; rfl, by decide, by decide⟩

set_option maxRecDepth 100000 in
/-- C6 (amended): the rebinner preserves the total payload count modulo 256
— exactly `round(f*c[k])` is moved from column `j` to `j+1` for a crossing
tick (subtracted on one side, added on the other, never added to both), and
the scatter-add accumulates duplicates — but the counts live in a `np.uint8`
array, so the totals agree only in `ZMod 256`, not exactly.  The hypotheses
keep the payload inside the staging range: later than the staging front
(where the model's index arithmetic coincides with numpy's) and ending
before the last column (numpy would raise `IndexError` on a crossing tick in
the last column). -/
theorem c6_total_preserved_mod256 (t0 u : ℕ) (scalers : List ℕ)
    (h1 : t0 < u)
    (h2 : u + scalers.length * scaler_udt ≤ t0 + 3999 * raw_udt) :
    (((rebinScalers t0 u scalers).1.sum : ℕ) : ZMod 256)
      = ((scalers.sum : ℕ) : ZMod 256) := by
  have hsum_nonzero : ((rebinIdxSclr scalers).map (fun k => scalers.getD k 0)).sum
      = scalers.sum := by
    unfold rebinIdxSclr
    rw [sum_map_filter_nonzero (fun k => scalers.getD k 0) (List.range scalers.length)]
    exact sum_map_range_getD scalers
  unfold rebinScalers
  by_cases hemp : (rebinIdxSclr scalers).length = 0
  · rw [if_pos hemp]
    have hempty : rebinIdxSclr scalers = [] := List.length_eq_zero.mp hemp
    rw [hempty] at hsum_nonzero
    simp only [List.map_nil, List.sum_nil] at hsum_nonzero
    rw [← hsum_nonzero]
    rfl
  · rw [if_neg hemp]
    show ((((rebinOutIdx t0 u scalers).map (rebinCounts3 t0 u scalers)).sum : ℕ) : ZMod 256) = _
    have hout : ((rebinOutIdx t0 u scalers).map (rebinCounts3 t0 u scalers)).sum
        = ((List.range staging_depth).map (rebinCounts3 t0 u scalers)).sum := by
      unfold rebinOutIdx
      exact sum_map_filter_nonzero (rebinCounts3 t0 u scalers) (List.range staging_depth)
    rw [hout, cast_sum_range_totalZ]
    -- pairwise-increasing raw indices of the crossing ticks, hence no duplicates
    have hpair := rebinCutList_pairwise t0 u scalers
    have hpair' : (rebinCutList t0 u scalers).Pairwise
        (fun a b => rebinIdxRaw t0 u a < rebinIdxRaw t0 u b) := (List.pairwise_map).mp hpair
    -- stage 3: the adds at idx_raw + 1
    have hnd3 : (((rebinCutList t0 u scalers).map (fun k =>
        (rebinIdxRaw t0 u k + 1,
          u8add (rebinCounts2 t0 u scalers (rebinIdxRaw t0 u k + 1))
            (rebinMoved t0 u scalers k)))).map Prod.fst).Nodup := by
      rw [List.map_map]
      have : (rebinCutList t0 u scalers).Pairwise
          (fun a b => rebinIdxRaw t0 u a + 1 < rebinIdxRaw t0 u b + 1) :=
        hpair'.imp (fun h => by omega)
      exact ((List.pairwise_map).mpr this).imp (fun h => by omega)
    have hps3 : ∀ p ∈ (rebinCutList t0 u scalers).map (fun k =>
        (rebinIdxRaw t0 u k + 1,
          u8add (rebinCounts2 t0 u scalers (rebinIdxRaw t0 u k + 1))
            (rebinMoved t0 u scalers k))), p.1 < staging_depth := by
      intro p hp
      obtain ⟨k, hk, rfl⟩ := List.mem_map.mp hp
      exact rebinCut_idx_succ_lt t0 u scalers h2 k hk
    have h3 : totalZ (rebinCounts3 t0 u scalers)
        = totalZ (rebinCounts2 t0 u scalers)
          + ((rebinCutList t0 u scalers).map
              (fun k => (rebinMoved t0 u scalers k : ZMod 256))).sum := by
      unfold rebinCounts3
      rw [totalZ_fancyAssign _ _ hps3 hnd3, List.map_map]
      congr 1
      refine congrArg _ (List.map_congr_left fun k _ => ?_)
      show (u8add (rebinCounts2 t0 u scalers (rebinIdxRaw t0 u k + 1))
          (rebinMoved t0 u scalers k) : ZMod 256)
          - (rebinCounts2 t0 u scalers (rebinIdxRaw t0 u k + 1) : ZMod 256) = _
      rw [u8add_cast]
      ring
    -- stage 2: the subtractions at idx_raw
    have hnd2 : (((rebinCutList t0 u scalers).map (fun k =>
        (rebinIdxRaw t0 u k,
          u8sub (rebinCounts1 t0 u scalers (rebinIdxRaw t0 u k))
            (rebinMoved t0 u scalers k)))).map Prod.fst).Nodup := by
      rw [List.map_map]
      exact ((List.pairwise_map).mpr hpair').imp (fun h => by omega)
    have hps2 : ∀ p ∈ (rebinCutList t0 u scalers).map (fun k =>
        (rebinIdxRaw t0 u k,
          u8sub (rebinCounts1 t0 u scalers (rebinIdxRaw t0 u k))
            (rebinMoved t0 u scalers k))), p.1 < staging_depth := by
      intro p hp
      obtain ⟨k, hk, rfl⟩ := List.mem_map.mp hp
      exact rebinIdxRaw_lt t0 u k
    have h2' : totalZ (rebinCounts2 t0 u scalers)
        = totalZ (rebinCounts1 t0 u scalers)
          - ((rebinCutList t0 u scalers).map
              (fun k => (rebinMoved t0 u scalers k : ZMod 256))).sum := by
      unfold rebinCounts2
      rw [totalZ_fancyAssign _ _ hps2 hnd2, List.map_map]
      rw [show ((rebinCutList t0 u scalers).map ((fun p : ℕ × ℕ =>
          (p.2 : ZMod 256) - (rebinCounts1 t0 u scalers p.1 : ZMod 256)) ∘ fun k =>
            (rebinIdxRaw t0 u k,
              u8sub (rebinCounts1 t0 u scalers (rebinIdxRaw t0 u k))
                (rebinMoved t0 u scalers k)))).sum
          = ((rebinCutList t0 u scalers).map
              (fun k => -((rebinMoved t0 u scalers k : ZMod 256)))).sum from ?_]
      · rw [sum_map_neg]
        ring
      · refine congrArg _ (List.map_congr_left fun k _ => ?_)
        show (u8sub (rebinCounts1 t0 u scalers (rebinIdxRaw t0 u k))
            (rebinMoved t0 u scalers k) : ZMod 256)
            - (rebinCounts1 t0 u scalers (rebinIdxRaw t0 u k) : ZMod 256) = _
        rw [u8sub_cast]
        ring
    -- stage 1: the scatter-add of the payload counts
    have hps1 : ∀ p ∈ (rebinIdxSclr scalers).map (fun k =>
        (rebinIdxRaw t0 u k, scalers.getD k 0)), p.1 < staging_depth := by
      intro p hp
      obtain ⟨k, hk, rfl⟩ := List.mem_map.mp hp
      exact rebinIdxRaw_lt t0 u k
    have h1' : totalZ (rebinCounts1 t0 u scalers)
        = ((scalers.sum : ℕ) : ZMod 256) := by
      unfold rebinCounts1
      rw [totalZ_scatterAdd _ _ hps1, List.map_map]
      have hzero : totalZ (fun _ => 0) = 0 := by
        unfold totalZ
        simp
      rw [hzero, zero_add]
      rw [show ((rebinIdxSclr scalers).map ((fun p : ℕ × ℕ => (p.2 : ZMod 256)) ∘ fun k =>
          (rebinIdxRaw t0 u k, scalers.getD k 0)))
          = (rebinIdxSclr scalers).map (fun k => ((scalers.getD k 0 : ℕ) : ZMod 256)) from
        List.map_congr_left fun k _ => rfl]
      rw [← hsum_nonzero, Nat.cast_list_sum, List.map_map]
      rfl
    rw [h3, h2', h1']
    ring

set_option maxRecDepth 100000 in
/-- C6 witness: the two-tick payload of the counterexample satisfies the
range hypotheses, and its staging total agrees with the payload total in
`ZMod 256` (254 = 510 - 256). -/
theorem c6_witness :
    ((0 : ℕ) < 1 ∧ 1 + ([255, 255] : List ℕ).length * scaler_udt ≤ 0 + 3999 * raw_udt) ∧
      (((rebinScalers 0 1 [255, 255]).1.sum : ℕ) : ZMod 256)
        = ((([255, 255] : List ℕ).sum : ℕ) : ZMod 256) :=
  ⟨⟨by decide, by simp [scaler_udt, raw_udt]⟩,
    c6_total_preserved_mod256 0 1 [255, 255] (by decide) (by simp [scaler_udt, raw_udt])⟩

end Sndaq
